import Mathlib

/-!
Verification development for the chess attack visualizer's core logic
(`src/utils/pieceLogic.js`): piece geometry, ray tracing with occlusion,
the depth-1 attack/defence aggregator and the speculative depth-2/3
aggregator.  Boards are modelled as total functions on integer
coordinates; the source only ever reads coordinates in `[0, 8)`.
The module-level `pieceColorMap` (a rendering aid rebuilt on each call,
not part of any return value) is not modelled.
-/

/-- A square is a (row, column) pair of integers. -/
abbrev Square := Int × Int

/-- A piece as stored in a board cell: a type string, a color string and an
optional numeric identity (`pieceIndex`).  Types and colors are strings,
exactly as in the source, so that unrecognized types are representable. -/
structure Piece where
  type : String
  color : String
  pieceIndex : Option Nat
deriving DecidableEq, Repr

/-- A board maps coordinates to an optional occupant. -/
abbrev Board := Int → Int → Option Piece

/-- `isOnBoard` from the source: `row >= 0 && row < 8 && col >= 0 && col < 8`. -/
def isOnBoard (row col : Int) : Bool :=
  decide (0 ≤ row) && decide (row < 8) && decide (0 ≤ col) && decide (col < 8)

/-- One ray of `getSlidingAttacks` (its `while` loop): step from
`(row, col)` by `(dr, dc)`, collecting each on-board square; when a board
is supplied and the stepped-to square is occupied the ray stops after
including that square.  `fuel` bounds the iteration; 8 steps suffice from
any on-board origin of the 8×8 board. -/
def slideRay (board : Option Board) (dr dc : Int) : Int → Int → Nat → List Square
  | _, _, 0 => []
  | row, col, fuel+1 =>
    let nr := row + dr
    let nc := col + dc
    if isOnBoard nr nc then
      (nr, nc) ::
        (match board with
         | some b => if (b nr nc).isSome then [] else slideRay board dr dc nr nc fuel
         | none => slideRay board dr dc nr nc fuel)
    else []

/-- `getSlidingAttacks(row, col, directions, board)` from the source. -/
def getSlidingAttacks (row col : Int) (directions : List (Int × Int))
    (board : Option Board) : List Square :=
  directions.flatMap fun d => slideRay board d.1 d.2 row col 8

/-- The king's eight unit deltas, in the source's loop order
(`dr` from -1 to 1 outer, `dc` from -1 to 1 inner, skipping (0,0)). -/
def kingDeltas : List (Int × Int) :=
  [(-1,-1),(-1,0),(-1,1),(0,-1),(0,1),(1,-1),(1,0),(1,1)]

/-- The knight's eight deltas, in source order. -/
def knightDeltas : List (Int × Int) :=
  [(-2,-1),(-2,1),(-1,-2),(-1,2),(1,-2),(1,2),(2,-1),(2,1)]

/-- The rook's four ray directions, in source order. -/
def rookDirs : List (Int × Int) := [(-1,0),(1,0),(0,-1),(0,1)]

/-- The bishop's four ray directions, in source order. -/
def bishopDirs : List (Int × Int) := [(-1,-1),(-1,1),(1,-1),(1,1)]

/-- The queen's eight ray directions (rook followed by bishop directions,
as listed in the source). -/
def queenDirs : List (Int × Int) := rookDirs ++ bishopDirs

/-- Add each delta to the origin and keep the on-board results (the
push-if-`isOnBoard` pattern used for king, knight and pawn). -/
def clipDeltas (row col : Int) (deltas : List (Int × Int)) : List Square :=
  deltas.filterMap fun d =>
    let nr := row + d.1
    let nc := col + d.2
    if isOnBoard nr nc then some (nr, nc) else none

/-- `direction = piece.color === 'white' ? -1 : 1`. -/
def pawnDir (piece : Piece) : Int := if piece.color = "white" then -1 else 1

/-- `getAttackedSquares(piece, row, col, board)` from the source: the
switch on `piece.type`; an unrecognized type falls through to the empty
list. -/
def getAttackedSquares (piece : Piece) (row col : Int)
    (board : Option Board) : List Square :=
  if piece.type = "king" then clipDeltas row col kingDeltas
  else if piece.type = "queen" then getSlidingAttacks row col queenDirs board
  else if piece.type = "rook" then getSlidingAttacks row col rookDirs board
  else if piece.type = "bishop" then getSlidingAttacks row col bishopDirs board
  else if piece.type = "knight" then clipDeltas row col knightDeltas
  else if piece.type = "pawn" then
    clipDeltas row col [(pawnDir piece, -1), (pawnDir piece, 1)]
  else []

/-- `!board || !board[r][c]`: the square is free when no board is supplied
or the cell is empty. -/
def cellFree (board : Option Board) (r c : Int) : Bool :=
  match board with
  | none => true
  | some b => (b r c).isNone

/-- `getMoveSquares(piece, row, col, board)` from the source: for every
piece except the pawn this is `getAttackedSquares`; a pawn gets its
forward moves (one step when free; additionally two steps from its start
row when that square is also free) followed by the two on-board diagonal
capture squares. -/
def getMoveSquares (piece : Piece) (row col : Int)
    (board : Option Board) : List Square :=
  if piece.type ≠ "pawn" then getAttackedSquares piece row col board
  else
    let direction := pawnDir piece
    let startRow : Int := if piece.color = "white" then 6 else 1
    let oneForward := row + direction
    let forward :=
      if isOnBoard oneForward col && cellFree board oneForward col then
        (oneForward, col) ::
          (if row = startRow then
            let twoForward := row + direction * 2
            if isOnBoard twoForward col && cellFree board twoForward col then
              [(twoForward, col)]
            else []
          else [])
      else []
    forward ++ clipDeltas row col [(direction, -1), (direction, 1)]

/-- One attack/defence contribution: the contributing piece's identity and
color (`{ idx, color: piece.color }` in the source). -/
structure AttackInfo where
  idx : Nat
  color : String
deriving DecidableEq, Repr

/-- A square's depth-1 record: attackers and defenders. -/
structure CellAD where
  attackers : List AttackInfo
  defenders : List AttackInfo
deriving DecidableEq, Repr

def emptyCellAD : CellAD := ⟨[], []⟩

/-- The grid returned by `calculateAllAttacks`, as a function on squares. -/
abbrev Grid1 := Square → CellAD

/-- An entry of the pieces scan: `{ piece, row, col, idx }` with
`idx = piece.pieceIndex ?? 0`. -/
structure PieceEntry where
  piece : Piece
  row : Int
  col : Int
  idx : Nat
deriving DecidableEq, Repr

/-- The row-major scan of the board collecting occupied squares
(the `for row … for col …` loops of both aggregators). -/
def boardPieces (board : Board) : List PieceEntry :=
  (List.range 8).flatMap fun r =>
    (List.range 8).filterMap fun c =>
      match board (Int.ofNat r) (Int.ofNat c) with
      | some p => some ⟨p, Int.ofNat r, Int.ofNat c, p.pieceIndex.getD 0⟩
      | none => none

/-- Point update of a depth-1 grid. -/
def updGrid1 (g : Grid1) (s : Square) (cell : CellAD) : Grid1 :=
  fun q => if q = s then cell else g q

/-- Record one depth-1 contribution at target square `s`: same-color
occupant goes to `defenders`, empty square or enemy occupant to
`attackers`. -/
def classifyPush (board : Board) (e : PieceEntry) (g : Grid1) (s : Square) : Grid1 :=
  let info : AttackInfo := ⟨e.idx, e.piece.color⟩
  let cell := g s
  match board s.1 s.2 with
  | some target =>
      if target.color = e.piece.color then
        updGrid1 g s { cell with defenders := cell.defenders ++ [info] }
      else
        updGrid1 g s { cell with attackers := cell.attackers ++ [info] }
  | none => updGrid1 g s { cell with attackers := cell.attackers ++ [info] }

/-- `calculateAllAttacks(board)` from the source (the spec's
`computeDirect`). -/
def calculateAllAttacks (board : Board) : Grid1 :=
  (boardPieces board).foldl
    (fun g e =>
      (getAttackedSquares e.piece e.row e.col (some board)).foldl
        (classifyPush board e) g)
    (fun _ => emptyCellAD)

/-- A square's record in the depth-aware grid. -/
structure Cell3 where
  depth1 : CellAD
  depth2 : CellAD
  depth3 : CellAD
deriving DecidableEq, Repr

def emptyCell3 : Cell3 := ⟨emptyCellAD, emptyCellAD, emptyCellAD⟩

/-- The grid returned by `calculateAttacksWithDepth`. -/
abbrev Grid3 := Square → Cell3

/-- Point update of a depth-aware grid. -/
def updGrid3 (g : Grid3) (s : Square) (cell : Cell3) : Grid3 :=
  fun q => if q = s then cell else g q

/-- `hasIdx(arr, idx)` from the source: membership by identity in a list
of contributions. -/
def hasIdx (arr : List AttackInfo) (idx : Nat) : Bool :=
  arr.any fun a => a.idx == idx

/-- Depth-1 classification push in `calculateAttacksWithDepth` (identical
classification rule to `classifyPush`, targeting the `depth1` field). -/
def pushDepth1 (board : Board) (e : PieceEntry) (g : Grid3) (s : Square) : Grid3 :=
  let info : AttackInfo := ⟨e.idx, e.piece.color⟩
  let cell := g s
  match board s.1 s.2 with
  | some target =>
      if target.color = e.piece.color then
        updGrid3 g s { cell with depth1 :=
          { cell.depth1 with defenders := cell.depth1.defenders ++ [info] } }
      else
        updGrid3 g s { cell with depth1 :=
          { cell.depth1 with attackers := cell.depth1.attackers ++ [info] } }
  | none => updGrid3 g s { cell with depth1 :=
      { cell.depth1 with attackers := cell.depth1.attackers ++ [info] } }

/-- The depth-1 loop of `calculateAttacksWithDepth`. -/
def depth1Phase (board : Board) (g : Grid3) : Grid3 :=
  (boardPieces board).foldl
    (fun g e =>
      (getAttackedSquares e.piece e.row e.col (some board)).foldl
        (pushDepth1 board e) g) g

/-- Depth-2 push: guarded by the dedup rule (`hasIdx` on depth-1
attackers, depth-1 defenders and depth-2 attackers). -/
def pushDepth2 (e : PieceEntry) (g : Grid3) (s : Square) : Grid3 :=
  let cell := g s
  if !hasIdx cell.depth1.attackers e.idx && !hasIdx cell.depth1.defenders e.idx &&
     !hasIdx cell.depth2.attackers e.idx then
    updGrid3 g s { cell with depth2 :=
      { cell.depth2 with attackers := cell.depth2.attackers ++ [⟨e.idx, e.piece.color⟩] } }
  else g

/-- The depth-2 loop of `calculateAttacksWithDepth`: move squares are
computed against the real board, future attacks from each hypothetical
destination with no board (no occlusion). -/
def depth2Phase (board : Board) (g : Grid3) : Grid3 :=
  (boardPieces board).foldl
    (fun g e =>
      (getMoveSquares e.piece e.row e.col (some board)).foldl
        (fun g mv =>
          (getAttackedSquares e.piece mv.1 mv.2 none).foldl
            (fun g s => pushDepth2 e g s) g) g) g

/-- Depth-3 push: dedup against depth-1 attackers and defenders, depth-2
attackers and depth-3 attackers. -/
def pushDepth3 (e : PieceEntry) (g : Grid3) (s : Square) : Grid3 :=
  let cell := g s
  if !hasIdx cell.depth1.attackers e.idx && !hasIdx cell.depth1.defenders e.idx &&
     !hasIdx cell.depth2.attackers e.idx && !hasIdx cell.depth3.attackers e.idx then
    updGrid3 g s { cell with depth3 :=
      { cell.depth3 with attackers := cell.depth3.attackers ++ [⟨e.idx, e.piece.color⟩] } }
  else g

/-- The depth-3 loop of `calculateAttacksWithDepth`: first hops use the
real board, the second hop and the final attack set use no board. -/
def depth3Phase (board : Board) (g : Grid3) : Grid3 :=
  (boardPieces board).foldl
    (fun g e =>
      (getMoveSquares e.piece e.row e.col (some board)).foldl
        (fun g mv1 =>
          (getMoveSquares e.piece mv1.1 mv1.2 none).foldl
            (fun g mv2 =>
              (getAttackedSquares e.piece mv2.1 mv2.2 none).foldl
                (fun g s => pushDepth3 e g s) g) g) g) g

/-- `calculateAttacksWithDepth(board, maxDepth)` from the source (the
spec's `computeWithDepth`): depth-1 always; depth-2 when `maxDepth ≥ 2`;
depth-3 when `maxDepth ≥ 3`. -/
def calculateAttacksWithDepth (board : Board) (maxDepth : Nat) : Grid3 :=
  let g1 := depth1Phase board (fun _ => emptyCell3)
  if maxDepth < 2 then g1
  else
    let g2 := depth2Phase board g1
    if maxDepth < 3 then g2
    else depth3Phase board g2

/-- State-passing form of `calculateAllAttacks`: the board is threaded
through every iteration (the source reads it and never writes it). -/
def calculateAllAttacksSt (board : Board) : Board × Grid1 :=
  (boardPieces board).foldl
    (fun st e =>
      (st.1,
       (getAttackedSquares e.piece e.row e.col (some st.1)).foldl
         (classifyPush st.1 e) st.2))
    (board, fun _ => emptyCellAD)

/-- State-passing form of the depth-1 loop. -/
def depth1PhaseSt (st : Board × Grid3) : Board × Grid3 :=
  (boardPieces st.1).foldl
    (fun st e =>
      (st.1,
       (getAttackedSquares e.piece e.row e.col (some st.1)).foldl
         (pushDepth1 st.1 e) st.2)) st

/-- State-passing form of the depth-2 loop. -/
def depth2PhaseSt (st : Board × Grid3) : Board × Grid3 :=
  (boardPieces st.1).foldl
    (fun st e =>
      (st.1,
       (getMoveSquares e.piece e.row e.col (some st.1)).foldl
         (fun g mv =>
           (getAttackedSquares e.piece mv.1 mv.2 none).foldl
             (fun g s => pushDepth2 e g s) g) st.2)) st

/-- State-passing form of the depth-3 loop. -/
def depth3PhaseSt (st : Board × Grid3) : Board × Grid3 :=
  (boardPieces st.1).foldl
    (fun st e =>
      (st.1,
       (getMoveSquares e.piece e.row e.col (some st.1)).foldl
         (fun g mv1 =>
           (getMoveSquares e.piece mv1.1 mv1.2 none).foldl
             (fun g mv2 =>
               (getAttackedSquares e.piece mv2.1 mv2.2 none).foldl
                 (fun g s => pushDepth3 e g s) g) g) st.2)) st

/-- State-passing form of `calculateAttacksWithDepth`. -/
def calculateAttacksWithDepthSt (board : Board) (maxDepth : Nat) : Board × Grid3 :=
  let st1 := depth1PhaseSt (board, fun _ => emptyCell3)
  if maxDepth < 2 then st1
  else
    let st2 := depth2PhaseSt st1
    if maxDepth < 3 then st2
    else depth3PhaseSt st2

set_option maxRecDepth 10000

/-! ### Generic fold lemmas -/

/-- An invariant preserved by every step of a left fold holds of its result. -/
theorem foldl_inv {α σ : Type _} (P : σ → Prop) (step : σ → α → σ) :
    ∀ (l : List α) (g : σ), P g → (∀ s a, a ∈ l → P s → P (step s a)) →
      P (l.foldl step g)
  | [], _, h, _ => h
  | a :: l, g, h, hstep =>
    foldl_inv P step l (step g a) (hstep g a (List.mem_cons_self a l) h)
      (fun s b hb hs => hstep s b (List.mem_cons_of_mem a hb) hs)

/-! ### Geometry lemmas -/

theorem isOnBoard_iff {r c : Int} :
    isOnBoard r c = true ↔ 0 ≤ r ∧ r < 8 ∧ 0 ≤ c ∧ c < 8 := by
  simp [isOnBoard, and_assoc]

theorem mem_clipDeltas {row col : Int} {ds : List (Int × Int)} {q : Square} :
    q ∈ clipDeltas row col ds ↔
      ∃ d ∈ ds, q = (row + d.1, col + d.2) ∧
        isOnBoard (row + d.1) (col + d.2) = true := by
  simp only [clipDeltas, List.mem_filterMap, Option.ite_none_right_eq_some,
    Option.some.injEq]
  constructor
  · rintro ⟨d, hd, hob, rfl⟩
    exact ⟨d, hd, rfl, hob⟩
  · rintro ⟨d, hd, rfl, hob⟩
    exact ⟨d, hd, hob, rfl⟩

theorem mem_slideRay {b : Board} {dr dc : Int} {q : Square} :
    ∀ {fuel : Nat} {row col : Int},
      q ∈ slideRay (some b) dr dc row col fuel ↔
        ∃ k : Nat, 1 ≤ k ∧ k ≤ fuel ∧
          q = (row + (k : Int) * dr, col + (k : Int) * dc) ∧
          (∀ j : Nat, 1 ≤ j → j ≤ k →
            isOnBoard (row + (j : Int) * dr) (col + (j : Int) * dc) = true) ∧
          (∀ j : Nat, 1 ≤ j → j < k →
            b (row + (j : Int) * dr) (col + (j : Int) * dc) = none) := by
  intro fuel
  induction fuel with
  | zero =>
    intro row col
    simp only [slideRay, List.not_mem_nil, false_iff]
    rintro ⟨k, hk1, hk0, -⟩
    omega
  | succ n ih =>
    intro row col
    have hone : ∀ x y : Int, x + ((1 : Nat) : Int) * y = x + y := by
      intro x y
      push_cast
      ring
    show q ∈ (if isOnBoard (row + dr) (col + dc) then
        (row + dr, col + dc) ::
          (if (b (row + dr) (col + dc)).isSome then []
           else slideRay (some b) dr dc (row + dr) (col + dc) n)
      else []) ↔ _
    by_cases hob : isOnBoard (row + dr) (col + dc) = true
    · rw [if_pos hob]
      by_cases hocc : (b (row + dr) (col + dc)).isSome = true
      · rw [if_pos hocc]
        simp only [List.mem_singleton]
        constructor
        · rintro rfl
          refine ⟨1, le_refl 1, by omega, by rw [hone, hone], ?_, ?_⟩
          · intro j hj1 hj2
            have hj : j = 1 := by omega
            subst hj
            rw [hone, hone]
            exact hob
          · intro j hj1 hj2
            omega
        · rintro ⟨k, hk1, hkn, rfl, hon, hemp⟩
          have hk : k = 1 := by
            by_contra hne
            have hemp1 := hemp 1 (le_refl 1) (by omega)
            rw [hone, hone] at hemp1
            rw [hemp1] at hocc
            simp at hocc
          subst hk
          rw [hone, hone]
      · rw [if_neg hocc]
        have hocc0 : b (row + dr) (col + dc) = none := by
          cases hb : b (row + dr) (col + dc) with
          | none => rfl
          | some t =>
            rw [hb] at hocc
            simp at hocc
        simp only [List.mem_cons, ih]
        constructor
        · rintro (rfl | ⟨k, hk1, hkn, rfl, hon, hemp⟩)
          · refine ⟨1, le_refl 1, by omega, by rw [hone, hone], ?_, ?_⟩
            · intro j hj1 hj2
              have hj : j = 1 := by omega
              subst hj
              rw [hone, hone]
              exact hob
            · intro j hj1 hj2
              omega
          · refine ⟨k + 1, by omega, by omega, ?_, ?_, ?_⟩
            · rw [Prod.mk.injEq]
              refine ⟨by push_cast; ring, by push_cast; ring⟩
            · intro j hj1 hj2
              rcases Nat.lt_or_ge j 2 with h2 | h2
              · have hj : j = 1 := by omega
                subst hj
                rw [hone, hone]
                exact hob
              · have hstep := hon (j - 1) (by omega) (by omega)
                have hr : row + dr + ((j - 1 : Nat) : Int) * dr = row + (j : Int) * dr := by
                  have hc : ((j - 1 : Nat) : Int) = (j : Int) - 1 := by omega
                  rw [hc]
                  ring
                have hcl : col + dc + ((j - 1 : Nat) : Int) * dc = col + (j : Int) * dc := by
                  have hc : ((j - 1 : Nat) : Int) = (j : Int) - 1 := by omega
                  rw [hc]
                  ring
                rw [hr, hcl] at hstep
                exact hstep
            · intro j hj1 hj2
              rcases Nat.lt_or_ge j 2 with h2 | h2
              · have hj : j = 1 := by omega
                subst hj
                rw [hone, hone]
                exact hocc0
              · have hstep := hemp (j - 1) (by omega) (by omega)
                have hr : row + dr + ((j - 1 : Nat) : Int) * dr = row + (j : Int) * dr := by
                  have hc : ((j - 1 : Nat) : Int) = (j : Int) - 1 := by omega
                  rw [hc]
                  ring
                have hcl : col + dc + ((j - 1 : Nat) : Int) * dc = col + (j : Int) * dc := by
                  have hc : ((j - 1 : Nat) : Int) = (j : Int) - 1 := by omega
                  rw [hc]
                  ring
                rw [hr, hcl] at hstep
                exact hstep
        · rintro ⟨k, hk1, hkn, rfl, hon, hemp⟩
          rcases Nat.lt_or_ge k 2 with h2 | h2
          · left
            have hk : k = 1 := by omega
            subst hk
            rw [hone, hone]
          · right
            refine ⟨k - 1, by omega, by omega, ?_, ?_, ?_⟩
            · have hr : row + (k : Int) * dr = row + dr + ((k - 1 : Nat) : Int) * dr := by
                have hc : ((k - 1 : Nat) : Int) = (k : Int) - 1 := by omega
                rw [hc]
                ring
              have hcl : col + (k : Int) * dc = col + dc + ((k - 1 : Nat) : Int) * dc := by
                have hc : ((k - 1 : Nat) : Int) = (k : Int) - 1 := by omega
                rw [hc]
                ring
              rw [Prod.mk.injEq]
              exact ⟨hr, hcl⟩
            · intro j hj1 hj2
              have hstep := hon (j + 1) (by omega) (by omega)
              have hr : row + ((j + 1 : Nat) : Int) * dr = row + dr + (j : Int) * dr := by
                push_cast
                ring
              have hcl : col + ((j + 1 : Nat) : Int) * dc = col + dc + (j : Int) * dc := by
                push_cast
                ring
              rw [hr, hcl] at hstep
              exact hstep
            · intro j hj1 hj2
              have hstep := hemp (j + 1) (by omega) (by omega)
              have hr : row + ((j + 1 : Nat) : Int) * dr = row + dr + (j : Int) * dr := by
                push_cast
                ring
              have hcl : col + ((j + 1 : Nat) : Int) * dc = col + dc + (j : Int) * dc := by
                push_cast
                ring
              rw [hr, hcl] at hstep
              exact hstep
    · rw [if_neg hob]
      simp only [List.not_mem_nil, false_iff]
      rintro ⟨k, hk1, hkn, rfl, hon, hemp⟩
      have h1 := hon 1 (le_refl 1) hk1
      rw [hone, hone] at h1
      exact hob h1
theorem mem_getSlidingAttacks {row col : Int} {dirs : List (Int × Int)}
    {b : Option Board} {q : Square} :
    q ∈ getSlidingAttacks row col dirs b ↔
      ∃ d ∈ dirs, q ∈ slideRay b d.1 d.2 row col 8 := by
  simp [getSlidingAttacks, List.mem_flatMap]

/-- A ray direction with both components in `{-1, 0, 1}`, not both zero
(every direction the source passes to `getSlidingAttacks` is one). -/
def IsUnitDir (d : Int × Int) : Prop :=
  (d.1 = -1 ∨ d.1 = 0 ∨ d.1 = 1) ∧ (d.2 = -1 ∨ d.2 = 0 ∨ d.2 = 1) ∧
    ¬(d.1 = 0 ∧ d.2 = 0)

instance (d : Int × Int) : Decidable (IsUnitDir d) := by
  unfold IsUnitDir
  infer_instance

/-- Two unit-direction steps land on the same offset only when direction
and step count agree. -/
theorem unitDir_step_inj {d e : Int × Int} (hd : IsUnitDir d) (he : IsUnitDir e)
    {k m : Nat} (hk : 1 ≤ k) (hm : 1 ≤ m)
    (h1 : (k : Int) * d.1 = (m : Int) * e.1)
    (h2 : (k : Int) * d.2 = (m : Int) * e.2) :
    d = e ∧ k = m := by
  obtain ⟨a, b⟩ := d
  obtain ⟨x, y⟩ := e
  obtain ⟨ha, hb, hab⟩ := hd
  obtain ⟨hx, hy, hxy⟩ := he
  simp only at h1 h2 ha hb hx hy hab hxy
  rw [Prod.mk.injEq]
  rcases ha with rfl | rfl | rfl <;> rcases hb with rfl | rfl | rfl <;>
    rcases hx with rfl | rfl | rfl <;> rcases hy with rfl | rfl | rfl <;>
      omega

/-- The ray directions of a sliding piece, as dispatched by
`getAttackedSquares`. -/
def pieceDirs (p : Piece) : List (Int × Int) :=
  if p.type = "rook" then rookDirs
  else if p.type = "bishop" then bishopDirs
  else if p.type = "queen" then queenDirs
  else []

theorem pieceDirs_unit {p : Piece} : ∀ d ∈ pieceDirs p, IsUnitDir d := by
  unfold pieceDirs
  split
  · decide
  split
  · decide
  split
  · decide
  · decide

theorem slider_attacks {p : Piece}
    (hp : p.type = "rook" ∨ p.type = "bishop" ∨ p.type = "queen")
    (row col : Int) (b : Option Board) :
    getAttackedSquares p row col b = getSlidingAttacks row col (pieceDirs p) b := by
  rcases hp with h | h | h <;> simp [getAttackedSquares, pieceDirs, h]

/-- Squares between an on-board origin and an on-board step along a unit
direction are on board. -/
theorem unit_between {r c : Int} {d : Int × Int} (hd : IsUnitDir d) {k j : Nat}
    (hj : j ≤ k) (h0 : isOnBoard r c = true)
    (hk : isOnBoard (r + (k : Int) * d.1) (c + (k : Int) * d.2) = true) :
    isOnBoard (r + (j : Int) * d.1) (c + (j : Int) * d.2) = true := by
  obtain ⟨a, b⟩ := d
  obtain ⟨ha, hb, -⟩ := hd
  simp only at ha hb ⊢
  rw [isOnBoard_iff] at h0 hk ⊢
  rcases ha with rfl | rfl | rfl <;> rcases hb with rfl | rfl | rfl <;> omega

/-- From an on-board origin at most 7 unit steps stay on board. -/
theorem unit_fuel {r c : Int} {d : Int × Int} (hd : IsUnitDir d) {k : Nat}
    (h0 : isOnBoard r c = true)
    (hk : isOnBoard (r + (k : Int) * d.1) (c + (k : Int) * d.2) = true) :
    k ≤ 8 := by
  obtain ⟨a, b⟩ := d
  obtain ⟨ha, hb, hab⟩ := hd
  simp only at ha hb hab
  rw [isOnBoard_iff] at h0 hk
  rcases ha with rfl | rfl | rfl <;> rcases hb with rfl | rfl | rfl <;> omega

/-- C3 (occlusion for sliding pieces): for every board, every
rook/bishop/queen on an on-board origin and every ray direction of that
piece, the on-board square `k` steps along the ray belongs to the attack
set exactly when every strictly earlier square of the ray is empty — so
the ray is included up to and including the first occupied square and no
further, and entirely when no square on it is occupied. -/
theorem claim_C3 (b : Board) (p : Piece) (row col : Int) (d : Int × Int) (k : Nat)
    (hob : isOnBoard row col = true)
    (hp : p.type = "rook" ∨ p.type = "bishop" ∨ p.type = "queen")
    (hd : d ∈ pieceDirs p) (hk1 : 1 ≤ k)
    (htgt : isOnBoard (row + (k : Int) * d.1) (col + (k : Int) * d.2) = true) :
    (row + (k : Int) * d.1, col + (k : Int) * d.2) ∈
        getAttackedSquares p row col (some b) ↔
      ∀ j : Nat, 1 ≤ j → j < k →
        b (row + (j : Int) * d.1) (col + (j : Int) * d.2) = none := by
  rw [slider_attacks hp, mem_getSlidingAttacks]
  constructor
  · rintro ⟨d2, hd2, hray⟩
    rw [mem_slideRay] at hray
    obtain ⟨m, hm1, hm8, heq, hon, hemp⟩ := hray
    rw [Prod.mk.injEq] at heq
    obtain ⟨he1, he2⟩ := heq
    have h1 : (k : Int) * d.1 = (m : Int) * d2.1 := by linarith
    have h2 : (k : Int) * d.2 = (m : Int) * d2.2 := by linarith
    obtain ⟨hde, hkm⟩ :=
      unitDir_step_inj (pieceDirs_unit d hd) (pieceDirs_unit d2 hd2) hk1 hm1 h1 h2
    subst hde
    subst hkm
    exact hemp
  · intro hemp
    refine ⟨d, hd, ?_⟩
    rw [mem_slideRay]
    exact ⟨k, hk1, unit_fuel (pieceDirs_unit d hd) hob htgt, rfl,
      fun j hj1 hj2 => unit_between (pieceDirs_unit d hd) hj2 hob htgt, hemp⟩

/-- White rook used by the C3 witness. -/
def rookW : Piece := ⟨"rook", "white", some 1⟩

/-- C3 witness board: white rook at (4,3), black pawn blocker at (4,5). -/
def bC3w : Board := fun r c =>
  if r = 4 ∧ c = 3 then some rookW
  else if r = 4 ∧ c = 5 then some ⟨"pawn", "black", some 2⟩
  else none

theorem claim_C3_witness :
    ((4 + ((2 : Nat) : Int) * 0, 3 + ((2 : Nat) : Int) * 1) : Square) ∈
      getAttackedSquares rookW 4 3 (some bC3w) :=
  (claim_C3 bC3w rookW 4 3 (0, 1) 2 (by decide) (Or.inl rfl) (by decide)
      (by decide) (by decide)).mpr
    (by
      intro j h1 h2
      have hj : j = 1 := by omega
      subst hj
      decide)

/-! ### Depth-1 aggregation lemmas -/

/-- The per-entry step of `calculateAllAttacks`. -/
def entryStep1 (board : Board) (g : Grid1) (e : PieceEntry) : Grid1 :=
  (getAttackedSquares e.piece e.row e.col (some board)).foldl (classifyPush board e) g

theorem calculateAllAttacks_eq (board : Board) :
    calculateAllAttacks board =
      (boardPieces board).foldl (entryStep1 board) (fun _ => emptyCellAD) := rfl

/-- Full description of one classification push: other squares unchanged;
at the target, the contribution goes to `defenders` when the occupant has
the piece's color and to `attackers` otherwise. -/
theorem classifyPush_spec (board : Board) (e : PieceEntry) (g : Grid1) (s : Square) :
    (∀ q, q ≠ s → classifyPush board e g s q = g q) ∧
    (((board s.1 s.2 = none ∨ ∃ t, board s.1 s.2 = some t ∧ t.color ≠ e.piece.color) ∧
      (classifyPush board e g s s).attackers = (g s).attackers ++ [⟨e.idx, e.piece.color⟩] ∧
      (classifyPush board e g s s).defenders = (g s).defenders) ∨
     ((∃ t, board s.1 s.2 = some t ∧ t.color = e.piece.color) ∧
      (classifyPush board e g s s).defenders = (g s).defenders ++ [⟨e.idx, e.piece.color⟩] ∧
      (classifyPush board e g s s).attackers = (g s).attackers)) := by
  cases hocc : board s.1 s.2 with
  | none =>
    refine ⟨fun q hq => ?_, Or.inl ⟨Or.inl rfl, ?_, ?_⟩⟩ <;>
      simp [classifyPush, updGrid1, hocc, *]
  | some t =>
    by_cases hc : t.color = e.piece.color
    · refine ⟨fun q hq => ?_, Or.inr ⟨⟨t, rfl, hc⟩, ?_, ?_⟩⟩ <;>
        simp [classifyPush, updGrid1, hocc, hc, *]
    · refine ⟨fun q hq => ?_, Or.inl ⟨Or.inr ⟨t, rfl, hc⟩, ?_, ?_⟩⟩ <;>
        simp [classifyPush, updGrid1, hocc, hc, *]

theorem classifyPush_mono_att {board : Board} {e : PieceEntry} {g : Grid1}
    {s q : Square} {a : AttackInfo} (h : a ∈ (g q).attackers) :
    a ∈ ((classifyPush board e g s) q).attackers := by
  obtain ⟨hother, hcases⟩ := classifyPush_spec board e g s
  by_cases hq : q = s
  · subst hq
    rcases hcases with ⟨-, hatt, -⟩ | ⟨-, -, hatt⟩ <;> rw [hatt] <;>
      simp [List.mem_append, h]
  · rw [hother q hq]
    exact h

theorem classifyPush_mono_def {board : Board} {e : PieceEntry} {g : Grid1}
    {s q : Square} {a : AttackInfo} (h : a ∈ (g q).defenders) :
    a ∈ ((classifyPush board e g s) q).defenders := by
  obtain ⟨hother, hcases⟩ := classifyPush_spec board e g s
  by_cases hq : q = s
  · subst hq
    rcases hcases with ⟨-, -, hdef⟩ | ⟨-, hdef, -⟩ <;> rw [hdef] <;>
      simp [List.mem_append, h]
  · rw [hother q hq]
    exact h

theorem foldl_classifyPush_mono_att {board : Board} {e : PieceEntry}
    {l : List Square} {g : Grid1} {q : Square} {a : AttackInfo}
    (h : a ∈ (g q).attackers) :
    a ∈ ((l.foldl (classifyPush board e) g) q).attackers :=
  foldl_inv (fun g2 => a ∈ (g2 q).attackers) (classifyPush board e) l g h
    (fun _ s _ hs => classifyPush_mono_att hs)

theorem foldl_classifyPush_mono_def {board : Board} {e : PieceEntry}
    {l : List Square} {g : Grid1} {q : Square} {a : AttackInfo}
    (h : a ∈ (g q).defenders) :
    a ∈ ((l.foldl (classifyPush board e) g) q).defenders :=
  foldl_inv (fun g2 => a ∈ (g2 q).defenders) (classifyPush board e) l g h
    (fun _ s _ hs => classifyPush_mono_def hs)

theorem entryStep1_mono_att {board : Board} {e : PieceEntry} {g : Grid1}
    {q : Square} {a : AttackInfo} (h : a ∈ (g q).attackers) :
    a ∈ ((entryStep1 board g e) q).attackers :=
  foldl_classifyPush_mono_att h

theorem entryStep1_mono_def {board : Board} {e : PieceEntry} {g : Grid1}
    {q : Square} {a : AttackInfo} (h : a ∈ (g q).defenders) :
    a ∈ ((entryStep1 board g e) q).defenders :=
  foldl_classifyPush_mono_def h

/-- Processing an entry records its contribution as an attacker at every
attacked square whose occupant is absent or of the other color. -/
theorem foldl_classifyPush_mem_att {board : Board} {e : PieceEntry}
    {s : Square}
    (hocc : board s.1 s.2 = none ∨ ∃ t, board s.1 s.2 = some t ∧ t.color ≠ e.piece.color) :
    ∀ {l : List Square}, s ∈ l → ∀ g : Grid1,
      (⟨e.idx, e.piece.color⟩ : AttackInfo) ∈ ((l.foldl (classifyPush board e) g) s).attackers := by
  intro l
  induction l with
  | nil => intro h; exact absurd h (List.not_mem_nil s)
  | cons hd tl ih =>
    intro hmem g
    rcases List.mem_cons.mp hmem with heq | htl
    · subst heq
      have hpush : (⟨e.idx, e.piece.color⟩ : AttackInfo) ∈
          ((classifyPush board e g s) s).attackers := by
        obtain ⟨-, hcases⟩ := classifyPush_spec board e g s
        rcases hcases with ⟨-, hatt, -⟩ | ⟨⟨t, ht, htc⟩, -, -⟩
        · rw [hatt]
          simp
        · rcases hocc with hnone | ⟨t2, ht2, htc2⟩
          · rw [hnone] at ht
            exact absurd ht (by simp)
          · rw [ht2] at ht
            cases ht
            exact absurd htc (by simp [htc2])
      rw [List.foldl_cons]
      exact foldl_classifyPush_mono_att hpush
    · rw [List.foldl_cons]
      exact ih htl (classifyPush board e g hd)

/-- Processing an entry records its contribution as a defender at every
attacked square whose occupant shares its color. -/
theorem foldl_classifyPush_mem_def {board : Board} {e : PieceEntry}
    {s : Square} {t : Piece}
    (ht : board s.1 s.2 = some t) (htc : t.color = e.piece.color) :
    ∀ {l : List Square}, s ∈ l → ∀ g : Grid1,
      (⟨e.idx, e.piece.color⟩ : AttackInfo) ∈ ((l.foldl (classifyPush board e) g) s).defenders := by
  intro l
  induction l with
  | nil => intro h; exact absurd h (List.not_mem_nil s)
  | cons hd tl ih =>
    intro hmem g
    rcases List.mem_cons.mp hmem with heq | htl
    · subst heq
      have hpush : (⟨e.idx, e.piece.color⟩ : AttackInfo) ∈
          ((classifyPush board e g s) s).defenders := by
        obtain ⟨-, hcases⟩ := classifyPush_spec board e g s
        rcases hcases with ⟨hor, -, -⟩ | ⟨-, hdef, -⟩
        · rcases hor with hnone | ⟨t2, ht2, htc2⟩
          · rw [hnone] at ht
            exact absurd ht (by simp)
          · rw [ht2] at ht
            cases ht
            exact absurd htc htc2
        · rw [hdef]
          simp
      rw [List.foldl_cons]
      exact foldl_classifyPush_mono_def hpush
    · rw [List.foldl_cons]
      exact ih htl (classifyPush board e g hd)

/-- Attacker contributions are only ever recorded at squares whose
occupant is absent or of a different color. -/
theorem classifyPush_attOK {board : Board} {e : PieceEntry} {g : Grid1} {s : Square}
    (h : ∀ q a, a ∈ (g q).attackers →
      board q.1 q.2 = none ∨ ∃ t, board q.1 q.2 = some t ∧ t.color ≠ a.color) :
    ∀ q a, a ∈ ((classifyPush board e g s) q).attackers →
      board q.1 q.2 = none ∨ ∃ t, board q.1 q.2 = some t ∧ t.color ≠ a.color := by
  intro q a ha
  obtain ⟨hother, hcases⟩ := classifyPush_spec board e g s
  by_cases hq : q = s
  · subst hq
    rcases hcases with ⟨hocc, hatt, -⟩ | ⟨-, -, hatt⟩
    · rw [hatt] at ha
      rcases List.mem_append.mp ha with hold | hnew
      · exact h _ _ hold
      · simp only [List.mem_singleton] at hnew
        subst hnew
        exact hocc
    · rw [hatt] at ha
      exact h _ _ ha
  · rw [hother q hq] at ha
    exact h _ _ ha

/-- Defender contributions are only ever recorded at squares whose
occupant shares the contributor's color. -/
theorem classifyPush_defOK {board : Board} {e : PieceEntry} {g : Grid1} {s : Square}
    (h : ∀ q a, a ∈ (g q).defenders →
      ∃ t, board q.1 q.2 = some t ∧ t.color = a.color) :
    ∀ q a, a ∈ ((classifyPush board e g s) q).defenders →
      ∃ t, board q.1 q.2 = some t ∧ t.color = a.color := by
  intro q a ha
  obtain ⟨hother, hcases⟩ := classifyPush_spec board e g s
  by_cases hq : q = s
  · subst hq
    rcases hcases with ⟨-, -, hdef⟩ | ⟨⟨t, ht, htc⟩, hdef, -⟩
    · rw [hdef] at ha
      exact h _ _ ha
    · rw [hdef] at ha
      rcases List.mem_append.mp ha with hold | hnew
      · exact h _ _ hold
      · simp only [List.mem_singleton] at hnew
        subst hnew
        exact ⟨t, ht, htc⟩
  · rw [hother q hq] at ha
    exact h _ _ ha

theorem calculateAllAttacks_attOK (board : Board) :
    ∀ q a, a ∈ ((calculateAllAttacks board) q).attackers →
      board q.1 q.2 = none ∨ ∃ t, board q.1 q.2 = some t ∧ t.color ≠ a.color := by
  rw [calculateAllAttacks_eq]
  refine foldl_inv
    (fun g => ∀ q a, a ∈ (g q).attackers →
      board q.1 q.2 = none ∨ ∃ t, board q.1 q.2 = some t ∧ t.color ≠ a.color)
    (entryStep1 board) _ _ ?_ ?_
  · intro q a ha
    simp [emptyCellAD] at ha
  · intro g e he hg
    unfold entryStep1
    exact foldl_inv
      (fun g2 => ∀ q a, a ∈ (g2 q).attackers →
        board q.1 q.2 = none ∨ ∃ t, board q.1 q.2 = some t ∧ t.color ≠ a.color)
      (classifyPush board e) _ g hg
      (fun g2 s hs hg2 => classifyPush_attOK hg2)

theorem calculateAllAttacks_defOK (board : Board) :
    ∀ q a, a ∈ ((calculateAllAttacks board) q).defenders →
      ∃ t, board q.1 q.2 = some t ∧ t.color = a.color := by
  rw [calculateAllAttacks_eq]
  refine foldl_inv
    (fun g => ∀ q a, a ∈ (g q).defenders →
      ∃ t, board q.1 q.2 = some t ∧ t.color = a.color)
    (entryStep1 board) _ _ ?_ ?_
  · intro q a ha
    simp [emptyCellAD] at ha
  · intro g e he hg
    unfold entryStep1
    exact foldl_inv
      (fun g2 => ∀ q a, a ∈ (g2 q).defenders →
        ∃ t, board q.1 q.2 = some t ∧ t.color = a.color)
      (classifyPush board e) _ g hg
      (fun g2 s hs hg2 => classifyPush_defOK hg2)

/-- Positive membership in the final depth-1 grid. -/
theorem calculateAllAttacks_mem_att {board : Board} {e : PieceEntry} {s : Square}
    (he : e ∈ boardPieces board)
    (hs : s ∈ getAttackedSquares e.piece e.row e.col (some board))
    (hocc : board s.1 s.2 = none ∨ ∃ t, board s.1 s.2 = some t ∧ t.color ≠ e.piece.color) :
    (⟨e.idx, e.piece.color⟩ : AttackInfo) ∈ ((calculateAllAttacks board) s).attackers := by
  rw [calculateAllAttacks_eq]
  obtain ⟨l1, l2, hl⟩ := List.append_of_mem he
  rw [hl, List.foldl_append, List.foldl_cons]
  refine foldl_inv (fun g => (⟨e.idx, e.piece.color⟩ : AttackInfo) ∈ (g s).attackers)
    (entryStep1 board) l2 _ ?_ (fun g2 a ha hg2 => entryStep1_mono_att hg2)
  exact foldl_classifyPush_mem_att hocc hs _

theorem calculateAllAttacks_mem_def {board : Board} {e : PieceEntry} {s : Square} {t : Piece}
    (he : e ∈ boardPieces board)
    (hs : s ∈ getAttackedSquares e.piece e.row e.col (some board))
    (ht : board s.1 s.2 = some t) (htc : t.color = e.piece.color) :
    (⟨e.idx, e.piece.color⟩ : AttackInfo) ∈ ((calculateAllAttacks board) s).defenders := by
  rw [calculateAllAttacks_eq]
  obtain ⟨l1, l2, hl⟩ := List.append_of_mem he
  rw [hl, List.foldl_append, List.foldl_cons]
  refine foldl_inv (fun g => (⟨e.idx, e.piece.color⟩ : AttackInfo) ∈ (g s).defenders)
    (entryStep1 board) l2 _ ?_ (fun g2 a ha hg2 => entryStep1_mono_def hg2)
  exact foldl_classifyPush_mem_def ht htc hs _

/-! ### Relating the depth grid's level 1 to `calculateAllAttacks`,
and frame lemmas between depth levels -/

theorem pushDepth1_depth1 (board : Board) (e : PieceEntry) (g : Grid3) (s q : Square) :
    ((pushDepth1 board e g s) q).depth1 =
      (classifyPush board e (fun q2 => (g q2).depth1) s) q := by
  cases hocc : board s.1 s.2 with
  | none =>
    by_cases hq : q = s <;> simp [pushDepth1, classifyPush, updGrid3, updGrid1, hocc, hq]
  | some t =>
    by_cases hc : t.color = e.piece.color <;> by_cases hq : q = s <;>
      simp [pushDepth1, classifyPush, updGrid3, updGrid1, hocc, hc, hq]

theorem pushDepth1_depth2 (board : Board) (e : PieceEntry) (g : Grid3) (s q : Square) :
    ((pushDepth1 board e g s) q).depth2 = (g q).depth2 := by
  cases hocc : board s.1 s.2 with
  | none =>
    by_cases hq : q = s <;> simp [pushDepth1, updGrid3, hocc, hq]
  | some t =>
    by_cases hc : t.color = e.piece.color <;> by_cases hq : q = s <;>
      simp [pushDepth1, updGrid3, hocc, hc, hq]

theorem pushDepth1_depth3 (board : Board) (e : PieceEntry) (g : Grid3) (s q : Square) :
    ((pushDepth1 board e g s) q).depth3 = (g q).depth3 := by
  cases hocc : board s.1 s.2 with
  | none =>
    by_cases hq : q = s <;> simp [pushDepth1, updGrid3, hocc, hq]
  | some t =>
    by_cases hc : t.color = e.piece.color <;> by_cases hq : q = s <;>
      simp [pushDepth1, updGrid3, hocc, hc, hq]

theorem pushDepth2_depth1 (e : PieceEntry) (g : Grid3) (s q : Square) :
    ((pushDepth2 e g s) q).depth1 = (g q).depth1 := by
  unfold pushDepth2
  split
  · unfold updGrid3
    by_cases hq : q = s <;> simp [hq]
  · rfl

theorem pushDepth2_depth3 (e : PieceEntry) (g : Grid3) (s q : Square) :
    ((pushDepth2 e g s) q).depth3 = (g q).depth3 := by
  unfold pushDepth2
  split
  · unfold updGrid3
    by_cases hq : q = s <;> simp [hq]
  · rfl

theorem pushDepth3_depth1 (e : PieceEntry) (g : Grid3) (s q : Square) :
    ((pushDepth3 e g s) q).depth1 = (g q).depth1 := by
  unfold pushDepth3
  split
  · unfold updGrid3
    by_cases hq : q = s <;> simp [hq]
  · rfl

theorem pushDepth3_depth2 (e : PieceEntry) (g : Grid3) (s q : Square) :
    ((pushDepth3 e g s) q).depth2 = (g q).depth2 := by
  unfold pushDepth3
  split
  · unfold updGrid3
    by_cases hq : q = s <;> simp [hq]
  · rfl

/-- A projection preserved by every step of a fold is preserved by the
whole fold. -/
theorem foldl_proj_const {α : Type _} (f : Grid3 → α → Grid3)
    (proj : Grid3 → Square → CellAD)
    (hstep : ∀ g a q, proj (f g a) q = proj g q) :
    ∀ (l : List α) (g : Grid3) (q : Square), proj (l.foldl f g) q = proj g q := by
  intro l
  induction l with
  | nil => intro g q; rfl
  | cons hd tl ih =>
    intro g q
    rw [List.foldl_cons, ih, hstep]

theorem foldl_pushDepth1_depth1 (board : Board) (e : PieceEntry) :
    ∀ (l : List Square) (g : Grid3) (q : Square),
      ((l.foldl (pushDepth1 board e) g) q).depth1 =
        (l.foldl (classifyPush board e) (fun q2 => (g q2).depth1)) q := by
  intro l
  induction l with
  | nil => intro g q; rfl
  | cons hd tl ih =>
    intro g q
    rw [List.foldl_cons, List.foldl_cons, ih]
    have harg : (fun q2 => ((pushDepth1 board e g hd) q2).depth1) =
        classifyPush board e (fun q2 => (g q2).depth1) hd := by
      funext q2
      exact pushDepth1_depth1 board e g hd q2
    rw [harg]

theorem depth1Phase_depth1 (board : Board) :
    ∀ (l : List PieceEntry) (g : Grid3) (q : Square),
      ((l.foldl (fun g e =>
          (getAttackedSquares e.piece e.row e.col (some board)).foldl
            (pushDepth1 board e) g) g) q).depth1 =
        (l.foldl (entryStep1 board) (fun q2 => (g q2).depth1)) q := by
  intro l
  induction l with
  | nil => intro g q; rfl
  | cons hd tl ih =>
    intro g q
    rw [List.foldl_cons, List.foldl_cons, ih]
    have harg : (fun q2 =>
        (((getAttackedSquares hd.piece hd.row hd.col (some board)).foldl
          (pushDepth1 board hd) g) q2).depth1) =
        entryStep1 board (fun q2 => (g q2).depth1) hd := by
      funext q2
      exact foldl_pushDepth1_depth1 board hd _ g q2
    rw [harg]

theorem depth1Phase_depth2 (board : Board) (g : Grid3) (q : Square) :
    ((depth1Phase board g) q).depth2 = (g q).depth2 := by
  unfold depth1Phase
  refine foldl_proj_const _ (fun g q => (g q).depth2) ?_ _ _ _
  intro g2 e q2
  exact foldl_proj_const _ (fun g q => (g q).depth2)
    (fun g3 s q3 => pushDepth1_depth2 board e g3 s q3) _ g2 q2

theorem depth1Phase_depth3 (board : Board) (g : Grid3) (q : Square) :
    ((depth1Phase board g) q).depth3 = (g q).depth3 := by
  unfold depth1Phase
  refine foldl_proj_const _ (fun g q => (g q).depth3) ?_ _ _ _
  intro g2 e q2
  exact foldl_proj_const _ (fun g q => (g q).depth3)
    (fun g3 s q3 => pushDepth1_depth3 board e g3 s q3) _ g2 q2

theorem depth2Phase_depth1 (board : Board) (g : Grid3) (q : Square) :
    ((depth2Phase board g) q).depth1 = (g q).depth1 := by
  unfold depth2Phase
  refine foldl_proj_const _ (fun g q => (g q).depth1) ?_ _ _ _
  intro g2 e q2
  refine foldl_proj_const _ (fun g q => (g q).depth1) ?_ _ g2 q2
  intro g3 mv q3
  exact foldl_proj_const _ (fun g q => (g q).depth1)
    (fun g4 s q4 => pushDepth2_depth1 e g4 s q4) _ g3 q3

theorem depth2Phase_depth3 (board : Board) (g : Grid3) (q : Square) :
    ((depth2Phase board g) q).depth3 = (g q).depth3 := by
  unfold depth2Phase
  refine foldl_proj_const _ (fun g q => (g q).depth3) ?_ _ _ _
  intro g2 e q2
  refine foldl_proj_const _ (fun g q => (g q).depth3) ?_ _ g2 q2
  intro g3 mv q3
  exact foldl_proj_const _ (fun g q => (g q).depth3)
    (fun g4 s q4 => pushDepth2_depth3 e g4 s q4) _ g3 q3

theorem depth3Phase_depth1 (board : Board) (g : Grid3) (q : Square) :
    ((depth3Phase board g) q).depth1 = (g q).depth1 := by
  unfold depth3Phase
  refine foldl_proj_const _ (fun g q => (g q).depth1) ?_ _ _ _
  intro g2 e q2
  refine foldl_proj_const _ (fun g q => (g q).depth1) ?_ _ g2 q2
  intro g3 mv1 q3
  refine foldl_proj_const _ (fun g q => (g q).depth1) ?_ _ g3 q3
  intro g4 mv2 q4
  exact foldl_proj_const _ (fun g q => (g q).depth1)
    (fun g5 s q5 => pushDepth3_depth1 e g5 s q5) _ g4 q4

theorem depth3Phase_depth2 (board : Board) (g : Grid3) (q : Square) :
    ((depth3Phase board g) q).depth2 = (g q).depth2 := by
  unfold depth3Phase
  refine foldl_proj_const _ (fun g q => (g q).depth2) ?_ _ _ _
  intro g2 e q2
  refine foldl_proj_const _ (fun g q => (g q).depth2) ?_ _ g2 q2
  intro g3 mv1 q3
  refine foldl_proj_const _ (fun g q => (g q).depth2) ?_ _ g3 q3
  intro g4 mv2 q4
  exact foldl_proj_const _ (fun g q => (g q).depth2)
    (fun g5 s q5 => pushDepth3_depth2 e g5 s q5) _ g4 q4

/-- The depth-1 level of the depth-aware grid coincides with
`calculateAllAttacks`, for every requested depth. -/
theorem calculateAttacksWithDepth_depth1 (board : Board) (maxDepth : Nat) (q : Square) :
    ((calculateAttacksWithDepth board maxDepth) q).depth1 = calculateAllAttacks board q := by
  have hbase : ((depth1Phase board (fun _ => emptyCell3)) q).depth1 =
      calculateAllAttacks board q := by
    unfold depth1Phase
    rw [depth1Phase_depth1 board _ _ q, calculateAllAttacks_eq]
    rfl
  unfold calculateAttacksWithDepth
  by_cases h2 : maxDepth < 2
  · rw [if_pos h2]
    exact hbase
  · rw [if_neg h2]
    by_cases h3 : maxDepth < 3
    · rw [if_pos h3]
      rw [depth2Phase_depth1]
      exact hbase
    · rw [if_neg h3]
      rw [depth3Phase_depth1, depth2Phase_depth1]
      exact hbase

/-- Membership in the board scan: exactly the on-board occupied squares,
with `idx = pieceIndex ?? 0`. -/
theorem mem_boardPieces {board : Board} {e : PieceEntry} :
    e ∈ boardPieces board ↔
      isOnBoard e.row e.col = true ∧ board e.row e.col = some e.piece ∧
        e.idx = e.piece.pieceIndex.getD 0 := by
  unfold boardPieces
  simp only [List.mem_flatMap, List.mem_filterMap, List.mem_range]
  constructor
  · rintro ⟨r, hr, c, hc, hmatch⟩
    cases hb : board (Int.ofNat r) (Int.ofNat c) with
    | none =>
      rw [hb] at hmatch
      simp at hmatch
    | some p =>
      rw [hb] at hmatch
      simp only [Option.some.injEq] at hmatch
      subst hmatch
      dsimp only
      refine ⟨by rw [isOnBoard_iff]; simp only [Int.ofNat_eq_natCast]; omega, hb, rfl⟩
  · rintro ⟨hob, hb, hidx⟩
    rw [isOnBoard_iff] at hob
    refine ⟨e.row.toNat, by omega, e.col.toNat, by omega, ?_⟩
    have hr : Int.ofNat e.row.toNat = e.row := by
      simp only [Int.ofNat_eq_natCast]
      omega
    have hc : Int.ofNat e.col.toNat = e.col := by
      simp only [Int.ofNat_eq_natCast]
      omega
    rw [hr, hc, hb]
    simp only [Option.some.injEq]
    cases e with
    | mk piece row col idx =>
      simp only at hidx ⊢
      rw [hidx]

/-- C1 (depth-1 classification): a piece on the board contributes, at each
of its occlusion-aware attacked squares, a defender record when the
occupant shares its color (and then never an attacker record), and an
attacker record when the square is empty or holds the opposite color (and
then never a defender record) — in `calculateAllAttacks` and in depth 1
of `calculateAttacksWithDepth` for every requested depth. -/
theorem claim_C1 (board : Board) (p : Piece) (r c : Int) (maxDepth : Nat)
    (hob : isOnBoard r c = true) (hp : board r c = some p)
    (s : Square) (hs : s ∈ getAttackedSquares p r c (some board)) :
    ((∃ t, board s.1 s.2 = some t ∧ t.color = p.color) →
       (⟨p.pieceIndex.getD 0, p.color⟩ : AttackInfo) ∈ ((calculateAllAttacks board) s).defenders ∧
       (⟨p.pieceIndex.getD 0, p.color⟩ : AttackInfo) ∉ ((calculateAllAttacks board) s).attackers ∧
       (⟨p.pieceIndex.getD 0, p.color⟩ : AttackInfo) ∈ ((calculateAttacksWithDepth board maxDepth) s).depth1.defenders ∧
       (⟨p.pieceIndex.getD 0, p.color⟩ : AttackInfo) ∉ ((calculateAttacksWithDepth board maxDepth) s).depth1.attackers) ∧
    ((board s.1 s.2 = none ∨ ∃ t, board s.1 s.2 = some t ∧ t.color ≠ p.color) →
       (⟨p.pieceIndex.getD 0, p.color⟩ : AttackInfo) ∈ ((calculateAllAttacks board) s).attackers ∧
       (⟨p.pieceIndex.getD 0, p.color⟩ : AttackInfo) ∉ ((calculateAllAttacks board) s).defenders ∧
       (⟨p.pieceIndex.getD 0, p.color⟩ : AttackInfo) ∈ ((calculateAttacksWithDepth board maxDepth) s).depth1.attackers ∧
       (⟨p.pieceIndex.getD 0, p.color⟩ : AttackInfo) ∉ ((calculateAttacksWithDepth board maxDepth) s).depth1.defenders) := by
  have he : (⟨p, r, c, p.pieceIndex.getD 0⟩ : PieceEntry) ∈ boardPieces board :=
    mem_boardPieces.mpr ⟨hob, hp, rfl⟩
  have hd1 := calculateAttacksWithDepth_depth1 board maxDepth s
  constructor
  · rintro ⟨t, ht, htc⟩
    have hmemdef :=
      calculateAllAttacks_mem_def (t := t) he hs ht htc
    have hnotatt :
        (⟨p.pieceIndex.getD 0, p.color⟩ : AttackInfo) ∉ ((calculateAllAttacks board) s).attackers := by
      intro hmem
      rcases calculateAllAttacks_attOK board s _ hmem with hnone | ⟨t2, ht2, htc2⟩
      · rw [ht] at hnone
        cases hnone
      · rw [ht] at ht2
        cases ht2
        exact htc2 htc
    refine ⟨hmemdef, hnotatt, ?_, ?_⟩
    · rw [hd1]
      exact hmemdef
    · rw [hd1]
      exact hnotatt
  · intro hocc
    have hmematt := calculateAllAttacks_mem_att he hs hocc
    have hnotdef :
        (⟨p.pieceIndex.getD 0, p.color⟩ : AttackInfo) ∉ ((calculateAllAttacks board) s).defenders := by
      intro hmem
      obtain ⟨t2, ht2, htc2⟩ := calculateAllAttacks_defOK board s _ hmem
      rcases hocc with hnone | ⟨t3, ht3, htc3⟩
      · rw [hnone] at ht2
        cases ht2
      · rw [ht3] at ht2
        cases ht2
        exact htc3 htc2
    refine ⟨hmematt, hnotdef, ?_, ?_⟩
    · rw [hd1]
      exact hmematt
    · rw [hd1]
      exact hnotdef

/-- C1 witness board: white rook at (4,3), white pawn at (2,3). -/
def bC1w : Board := fun r c =>
  if r = 4 ∧ c = 3 then some rookW
  else if r = 2 ∧ c = 3 then some ⟨"pawn", "white", some 2⟩
  else none

theorem claim_C1_witness :
    (⟨1, "white"⟩ : AttackInfo) ∈ ((calculateAllAttacks bC1w) (2, 3)).defenders ∧
    (⟨1, "white"⟩ : AttackInfo) ∉ ((calculateAllAttacks bC1w) (2, 3)).attackers ∧
    (⟨1, "white"⟩ : AttackInfo) ∈ ((calculateAllAttacks bC1w) (4, 4)).attackers ∧
    (⟨1, "white"⟩ : AttackInfo) ∉ ((calculateAllAttacks bC1w) (4, 4)).defenders := by
  have hdefend :=
    (claim_C1 bC1w rookW 4 3 1 (by decide) (by decide) (2, 3) (by decide)).1
      ⟨⟨"pawn", "white", some 2⟩, by decide, rfl⟩
  have hattack :=
    (claim_C1 bC1w rookW 4 3 1 (by decide) (by decide) (4, 4) (by decide)).2
      (Or.inl (by decide))
  exact ⟨hdefend.1, hdefend.2.1, hattack.1, hattack.2.1⟩

/-- C7 (totality and empty board): both aggregators are total functions of
the board, and on a board with no piece on any playable square every
returned cell is empty at every depth. -/
theorem claim_C7 (board : Board)
    (hmt : ∀ r c : Int, isOnBoard r c = true → board r c = none) :
    (∀ q : Square, calculateAllAttacks board q = emptyCellAD) ∧
    (∀ (maxDepth : Nat) (q : Square),
      calculateAttacksWithDepth board maxDepth q = emptyCell3) := by
  have hnil : boardPieces board = [] := by
    rw [List.eq_nil_iff_forall_not_mem]
    intro e he
    rw [mem_boardPieces] at he
    obtain ⟨hob, hb, -⟩ := he
    rw [hmt e.row e.col hob] at hb
    cases hb
  constructor
  · intro q
    rw [calculateAllAttacks_eq, hnil]
    rfl
  · intro maxDepth q
    have h1 : depth1Phase board (fun _ => emptyCell3) = fun _ => emptyCell3 := by
      unfold depth1Phase
      rw [hnil]
      rfl
    have h2 : depth2Phase board (fun _ => emptyCell3) = fun _ => emptyCell3 := by
      unfold depth2Phase
      rw [hnil]
      rfl
    have h3 : depth3Phase board (fun _ => emptyCell3) = fun _ => emptyCell3 := by
      unfold depth3Phase
      rw [hnil]
      rfl
    unfold calculateAttacksWithDepth
    rw [h1]
    by_cases hd2 : maxDepth < 2
    · rw [if_pos hd2]
    · rw [if_neg hd2, h2]
      by_cases hd3 : maxDepth < 3
      · rw [if_pos hd3]
      · rw [if_neg hd3, h3]

theorem claim_C7_witness :
    calculateAllAttacks (fun _ _ => none) (0, 0) = emptyCellAD ∧
    calculateAttacksWithDepth (fun _ _ => none) 3 (4, 4) = emptyCell3 := by
  have h := claim_C7 (fun _ _ => none) (fun r c _ => rfl)
  exact ⟨h.1 (0, 0), h.2 3 (4, 4)⟩

/-- C8 (stopping policy): with `maxDepth = 1` the returned grid has empty
depth-2 and depth-3 records everywhere; with `maxDepth = 2` the depth-3
records are empty everywhere. -/
theorem claim_C8 (board : Board) (q : Square) :
    (calculateAttacksWithDepth board 1 q).depth2 = emptyCellAD ∧
    (calculateAttacksWithDepth board 1 q).depth3 = emptyCellAD ∧
    (calculateAttacksWithDepth board 2 q).depth3 = emptyCellAD := by
  unfold calculateAttacksWithDepth
  norm_num
  refine ⟨?_, ?_, ?_⟩
  · rw [depth1Phase_depth2]
    rfl
  · rw [depth1Phase_depth3]
    rfl
  · rw [depth2Phase_depth3, depth1Phase_depth3]
    rfl

/-! ### State-passing runs return the board unchanged (frame property) -/

theorem stFold1 (board : Board) :
    ∀ (l : List PieceEntry) (g : Grid1),
      l.foldl
        (fun st e =>
          (st.1,
           (getAttackedSquares e.piece e.row e.col (some st.1)).foldl
             (classifyPush st.1 e) st.2)) (board, g) =
        (board, l.foldl (entryStep1 board) g) := by
  intro l
  induction l with
  | nil => intro g; rfl
  | cons hd tl ih =>
    intro g
    rw [List.foldl_cons, List.foldl_cons]
    exact ih (entryStep1 board g hd)

theorem calculateAllAttacksSt_eq (board : Board) :
    calculateAllAttacksSt board = (board, calculateAllAttacks board) := by
  unfold calculateAllAttacksSt
  rw [stFold1, calculateAllAttacks_eq]

theorem depth1PhaseSt_eq (board : Board) (g : Grid3) :
    depth1PhaseSt (board, g) = (board, depth1Phase board g) := by
  unfold depth1PhaseSt depth1Phase
  show (boardPieces board).foldl _ (board, g) = _
  generalize boardPieces board = l
  induction l generalizing g with
  | nil => rfl
  | cons hd tl ih =>
    rw [List.foldl_cons, List.foldl_cons]
    exact ih _

theorem depth2PhaseSt_eq (board : Board) (g : Grid3) :
    depth2PhaseSt (board, g) = (board, depth2Phase board g) := by
  unfold depth2PhaseSt depth2Phase
  show (boardPieces board).foldl _ (board, g) = _
  generalize boardPieces board = l
  induction l generalizing g with
  | nil => rfl
  | cons hd tl ih =>
    rw [List.foldl_cons, List.foldl_cons]
    exact ih _

theorem depth3PhaseSt_eq (board : Board) (g : Grid3) :
    depth3PhaseSt (board, g) = (board, depth3Phase board g) := by
  unfold depth3PhaseSt depth3Phase
  show (boardPieces board).foldl _ (board, g) = _
  generalize boardPieces board = l
  induction l generalizing g with
  | nil => rfl
  | cons hd tl ih =>
    rw [List.foldl_cons, List.foldl_cons]
    exact ih _

/-- C9 (frame property): the state-passing runs of both aggregators leave
every cell of the board exactly as it was, and produce the same grids as
the pure functions. -/
theorem claim_C9 (board : Board) (maxDepth : Nat) :
    (∀ r c : Int, (calculateAllAttacksSt board).1 r c = board r c) ∧
    (calculateAllAttacksSt board).2 = calculateAllAttacks board ∧
    (∀ r c : Int, (calculateAttacksWithDepthSt board maxDepth).1 r c = board r c) ∧
    (calculateAttacksWithDepthSt board maxDepth).2 =
      calculateAttacksWithDepth board maxDepth := by
  have h1 := calculateAllAttacksSt_eq board
  have hst : calculateAttacksWithDepthSt board maxDepth =
      (board, calculateAttacksWithDepth board maxDepth) := by
    unfold calculateAttacksWithDepthSt calculateAttacksWithDepth
    rw [depth1PhaseSt_eq]
    by_cases h2 : maxDepth < 2
    · rw [if_pos h2, if_pos h2]
    · rw [if_neg h2, if_neg h2, depth2PhaseSt_eq]
      by_cases h3 : maxDepth < 3
      · rw [if_pos h3, if_pos h3]
      · rw [if_neg h3, if_neg h3, depth3PhaseSt_eq]
  refine ⟨fun r c => by rw [h1], by rw [h1], fun r c => by rw [hst], by rw [hst]⟩

/-- A white pawn with no assigned identity. -/
def pawnNoId : Piece := ⟨"pawn", "white", none⟩

/-- C10 board: two identity-less white pawns at (6,0) and (6,2). -/
def bC10w : Board := fun r c =>
  if r = 6 ∧ c = 0 then some pawnNoId
  else if r = 6 ∧ c = 2 then some pawnNoId
  else none

/-- C10 (identity defaulting): a placed piece whose `pieceIndex` is absent
is scanned with identity 0, so the contributions of several identity-less
pieces merge under identity 0 instead of being rejected — on `bC10w` the
square (5,1) records the attacker identity 0 twice, one record per pawn. -/
theorem claim_C10 :
    (∀ (board : Board) (r c : Int) (p : Piece), isOnBoard r c = true →
      board r c = some p → p.pieceIndex = none →
      (⟨p, r, c, 0⟩ : PieceEntry) ∈ boardPieces board) ∧
    (calculateAllAttacks bC10w (5, 1)).attackers =
      [⟨0, "white"⟩, ⟨0, "white"⟩] := by
  constructor
  · intro board r c p hob hp hnone
    refine mem_boardPieces.mpr ⟨hob, hp, ?_⟩
    rw [hnone]
    rfl
  · decide

theorem claim_C10_witness :
    (⟨pawnNoId, 6, 0, 0⟩ : PieceEntry) ∈ boardPieces bC10w :=
  claim_C10.1 bC10w 6 0 pawnNoId (by decide) (by decide) rfl

/-- A piece whose type string is not one of the six recognized types. -/
def dragonW : Piece := ⟨"dragon", "white", some 0⟩

/-- C5 board: a single unrecognized piece at (0,0). -/
def bC5w : Board := fun r c =>
  if r = 0 ∧ c = 0 then some dragonW else none

/-- C5 counterexample: a board holding a piece of unrecognized type is not
rejected and not detected — both aggregators run to completion and return
exactly the normally-computed grid of the board without that piece (the
all-empty grid here), the unrecognized piece contributing nothing. -/
theorem claim_C5_counterexample :
    calculateAllAttacks bC5w = calculateAllAttacks (fun _ _ => none) ∧
    calculateAttacksWithDepth bC5w 3 = calculateAttacksWithDepth (fun _ _ => none) 3 ∧
    getAttackedSquares dragonW 0 0 (some bC5w) = [] :=
  ⟨rfl, rfl, rfl⟩

/-- C5 as amended: there is no fail-fast validation; a piece with an
unrecognized type is silently tolerated — its attack and move sets are
empty, so the aggregation step that processes it leaves the grid
unchanged and the call still returns a fully computed grid. -/
theorem claim_C5_amended (p : Piece)
    (hp : p.type ∉ ["king", "queen", "rook", "bishop", "knight", "pawn"]) :
    (∀ (row col : Int) (b : Option Board), getAttackedSquares p row col b = []) ∧
    (∀ (row col : Int) (b : Option Board), getMoveSquares p row col b = []) ∧
    (∀ (board : Board) (e : PieceEntry) (g : Grid1), e.piece = p →
      (getAttackedSquares e.piece e.row e.col (some board)).foldl
        (classifyPush board e) g = g) := by
  simp only [List.mem_cons, List.not_mem_nil, or_false, not_or] at hp
  obtain ⟨h1, h2, h3, h4, h5, h6⟩ := hp
  have hatt : ∀ (row col : Int) (b : Option Board),
      getAttackedSquares p row col b = [] := by
    intro row col b
    simp [getAttackedSquares, h1, h2, h3, h4, h5, h6]
  refine ⟨hatt, ?_, ?_⟩
  · intro row col b
    rw [getMoveSquares, if_pos h6]
    exact hatt row col b
  · intro board e g he
    rw [he, hatt e.row e.col (some board)]
    rfl

theorem claim_C5_amended_witness :
    getAttackedSquares dragonW 3 3 none = [] ∧
    getMoveSquares dragonW 3 3 none = [] :=
  ⟨(claim_C5_amended dragonW (by decide)).1 3 3 none,
   (claim_C5_amended dragonW (by decide)).2.1 3 3 none⟩

/-! ### Depth-2 characterization -/

theorem hasIdx_iff {l : List AttackInfo} {i : Nat} :
    hasIdx l i = true ↔ ∃ a ∈ l, a.idx = i := by
  simp [hasIdx, List.any_eq_true, beq_iff_eq]

theorem hasIdx_append {l1 l2 : List AttackInfo} {i : Nat} :
    hasIdx (l1 ++ l2) i = (hasIdx l1 i || hasIdx l2 i) := by
  simp [hasIdx, List.any_append]

/-- Identity membership of a single contribution list. -/
theorem hasIdx_singleton {j : Nat} {c : String} {i : Nat} :
    hasIdx [⟨j, c⟩] i = (j == i) := by
  simp [hasIdx]

/-- One depth-2 push, described by identity membership: nothing changes
except possibly at the pushed square, where identity `e.idx` appears
afterwards exactly when it was already there or the dedup guard admits
it. -/
theorem pushDepth2_hasIdx (e : PieceEntry) (g : Grid3) (s q : Square) (i : Nat) :
    (hasIdx (((pushDepth2 e g s) q).depth2.attackers) i = true ↔
      hasIdx ((g q).depth2.attackers) i = true ∨
        (q = s ∧ i = e.idx ∧ hasIdx ((g q).depth1.attackers) e.idx = false ∧
          hasIdx ((g q).depth1.defenders) e.idx = false)) := by
  by_cases hq : q = s
  · subst hq
    by_cases hi : i = e.idx
    · subst hi
      cases hD : hasIdx ((g q).depth1.attackers) e.idx <;>
        cases hE : hasIdx ((g q).depth1.defenders) e.idx <;>
          cases hF : hasIdx ((g q).depth2.attackers) e.idx <;>
            simp [pushDepth2, updGrid3, hD, hE, hF, hasIdx_append, hasIdx_singleton]
    · have hi2 : ¬ e.idx = i := fun h => hi h.symm
      unfold pushDepth2
      split <;> simp [updGrid3, hasIdx_append, hasIdx_singleton, hi, hi2]
  · unfold pushDepth2
    split <;> simp [updGrid3, hq]

theorem foldl_pushDepth2_hasIdx (e : PieceEntry) :
    ∀ (l : List Square) (g : Grid3) (q : Square) (i : Nat),
      hasIdx (((l.foldl (fun g s => pushDepth2 e g s) g) q).depth2.attackers) i = true ↔
        hasIdx ((g q).depth2.attackers) i = true ∨
          (q ∈ l ∧ i = e.idx ∧ hasIdx ((g q).depth1.attackers) e.idx = false ∧
            hasIdx ((g q).depth1.defenders) e.idx = false) := by
  intro l
  induction l with
  | nil =>
    intro g q i
    simp
  | cons hd tl ih =>
    intro g q i
    rw [List.foldl_cons, ih, pushDepth2_hasIdx]
    have hd1 : (pushDepth2 e g hd q).depth1 = (g q).depth1 := pushDepth2_depth1 e g hd q
    rw [hd1, List.mem_cons]
    constructor
    · rintro ((hold | ⟨rfl, hi, hD, hE⟩) | ⟨hmem, hi, hD, hE⟩)
      · exact Or.inl hold
      · exact Or.inr ⟨Or.inl rfl, hi, hD, hE⟩
      · exact Or.inr ⟨Or.inr hmem, hi, hD, hE⟩
    · rintro (hold | ⟨hq | hmem, hi, hD, hE⟩)
      · exact Or.inl (Or.inl hold)
      · exact Or.inl (Or.inr ⟨hq, hi, hD, hE⟩)
      · exact Or.inr ⟨hmem, hi, hD, hE⟩

theorem foldl_mvStep_hasIdx (e : PieceEntry) :
    ∀ (l : List Square) (g : Grid3) (q : Square) (i : Nat),
      hasIdx (((l.foldl (fun g mv =>
          (getAttackedSquares e.piece mv.1 mv.2 none).foldl
            (fun g s => pushDepth2 e g s) g) g) q).depth2.attackers) i = true ↔
        hasIdx ((g q).depth2.attackers) i = true ∨
          ((∃ mv ∈ l, q ∈ getAttackedSquares e.piece mv.1 mv.2 none) ∧ i = e.idx ∧
            hasIdx ((g q).depth1.attackers) e.idx = false ∧
            hasIdx ((g q).depth1.defenders) e.idx = false) := by
  intro l
  induction l with
  | nil =>
    intro g q i
    simp
  | cons hd tl ih =>
    intro g q i
    rw [List.foldl_cons, ih, foldl_pushDepth2_hasIdx]
    have hd1 : ∀ q2 : Square,
        (((getAttackedSquares e.piece hd.1 hd.2 none).foldl
          (fun g s => pushDepth2 e g s) g) q2).depth1 = (g q2).depth1 :=
      fun q2 => foldl_proj_const _ (fun g q => (g q).depth1)
        (fun g2 s q3 => pushDepth2_depth1 e g2 s q3) _ g q2
    rw [hd1 q]
    constructor
    · rintro ((hold | ⟨hmem, hi, hD, hE⟩) | ⟨⟨mv, hmv, hmem⟩, hi, hD, hE⟩)
      · exact Or.inl hold
      · exact Or.inr ⟨⟨hd, List.mem_cons_self hd tl, hmem⟩, hi, hD, hE⟩
      · exact Or.inr ⟨⟨mv, List.mem_cons_of_mem hd hmv, hmem⟩, hi, hD, hE⟩
    · rintro (hold | ⟨⟨mv, hmv, hmem⟩, hi, hD, hE⟩)
      · exact Or.inl (Or.inl hold)
      · rcases List.mem_cons.mp hmv with rfl | hmv2
        · exact Or.inl (Or.inr ⟨hmem, hi, hD, hE⟩)
        · exact Or.inr ⟨⟨mv, hmv2, hmem⟩, hi, hD, hE⟩

theorem foldl_entryStep2_hasIdx (board : Board) :
    ∀ (l : List PieceEntry) (g : Grid3) (q : Square) (i : Nat),
      hasIdx (((l.foldl (fun g e =>
          (getMoveSquares e.piece e.row e.col (some board)).foldl
            (fun g mv => (getAttackedSquares e.piece mv.1 mv.2 none).foldl
              (fun g s => pushDepth2 e g s) g) g) g) q).depth2.attackers) i = true ↔
        hasIdx ((g q).depth2.attackers) i = true ∨
          ∃ e ∈ l, i = e.idx ∧
            hasIdx ((g q).depth1.attackers) i = false ∧
            hasIdx ((g q).depth1.defenders) i = false ∧
            ∃ mv ∈ getMoveSquares e.piece e.row e.col (some board),
              q ∈ getAttackedSquares e.piece mv.1 mv.2 none := by
  intro l
  induction l with
  | nil =>
    intro g q i
    simp
  | cons hd tl ih =>
    intro g q i
    rw [List.foldl_cons, ih, foldl_mvStep_hasIdx]
    have hd1 : ∀ q2 : Square,
        (((getMoveSquares hd.piece hd.row hd.col (some board)).foldl
          (fun g mv => (getAttackedSquares hd.piece mv.1 mv.2 none).foldl
            (fun g s => pushDepth2 hd g s) g) g) q2).depth1 = (g q2).depth1 := by
      intro q2
      refine foldl_proj_const _ (fun g q => (g q).depth1) ?_ _ g q2
      intro g2 mv q3
      exact foldl_proj_const _ (fun g q => (g q).depth1)
        (fun g3 s q4 => pushDepth2_depth1 hd g3 s q4) _ g2 q3
    rw [hd1 q]
    constructor
    · rintro ((hold | ⟨hex, hi, hD, hE⟩) | ⟨e, he, hi, hD, hE, hex⟩)
      · exact Or.inl hold
      · subst hi
        exact Or.inr ⟨hd, List.mem_cons_self hd tl, rfl, hD, hE, hex⟩
      · exact Or.inr ⟨e, List.mem_cons_of_mem hd he, hi, hD, hE, hex⟩
    · rintro (hold | ⟨e, he, hi, hD, hE, hex⟩)
      · exact Or.inl (Or.inl hold)
      · rcases List.mem_cons.mp he with rfl | he2
        · subst hi
          exact Or.inl (Or.inr ⟨hex, rfl, hD, hE⟩)
        · exact Or.inr ⟨e, he2, hi, hD, hE, hex⟩

/-- A pawn's starting rank: row 6 for white, row 1 for black. -/
def pawnStartRow (p : Piece) : Int := if p.color = "white" then 6 else 1

/-- The pawn move-set as worded by the spec (§4.3): one square straight
ahead if unoccupied; two squares ahead from the starting rank if both the
intermediate and destination squares are unoccupied; plus the two
on-board diagonal capture squares. -/
def pawnMoveSpec (p : Piece) (row col : Int) (b : Board) (q : Square) : Prop :=
  (q = (row + pawnDir p, col) ∧ isOnBoard (row + pawnDir p) col = true ∧
     b (row + pawnDir p) col = none) ∨
  (q = (row + pawnDir p * 2, col) ∧ row = pawnStartRow p ∧
     isOnBoard (row + pawnDir p) col = true ∧ b (row + pawnDir p) col = none ∧
     isOnBoard (row + pawnDir p * 2) col = true ∧
     b (row + pawnDir p * 2) col = none) ∨
  (q = (row + pawnDir p, col - 1) ∧ isOnBoard (row + pawnDir p) (col - 1) = true) ∨
  (q = (row + pawnDir p, col + 1) ∧ isOnBoard (row + pawnDir p) (col + 1) = true)

theorem getMoveSquares_pawn_spec (p : Piece) (row col : Int) (b : Board) (q : Square)
    (hp : p.type = "pawn") :
    q ∈ getMoveSquares p row col (some b) ↔ pawnMoveSpec p row col b q := by
  have hm1 : col + (-1 : Int) = col - 1 := by ring
  rw [getMoveSquares, if_neg (by simp [hp])]
  rw [List.mem_append, mem_clipDeltas]
  unfold pawnMoveSpec pawnStartRow
  generalize (if p.color = "white" then (6 : Int) else 1) = sr
  constructor
  · rintro (hfwd | ⟨d, hd, rfl, hon⟩)
    · split_ifs at hfwd with h1 h2
      · rw [Bool.and_eq_true] at h1
        rcases List.mem_cons.mp hfwd with rfl | hfwd2
        · exact Or.inl ⟨rfl, h1.1,
            Option.isNone_iff_eq_none.mp (by simpa [cellFree] using h1.2)⟩
        · dsimp only at hfwd2
          split_ifs at hfwd2 with h3
          · rw [Bool.and_eq_true] at h3
            simp only [List.mem_singleton] at hfwd2
            subst hfwd2
            exact Or.inr (Or.inl ⟨rfl, h2, h1.1,
              Option.isNone_iff_eq_none.mp (by simpa [cellFree] using h1.2), h3.1,
              Option.isNone_iff_eq_none.mp (by simpa [cellFree] using h3.2)⟩)
          · simp at hfwd2
      · rw [Bool.and_eq_true] at h1
        rcases List.mem_cons.mp hfwd with rfl | hfwd2
        · exact Or.inl ⟨rfl, h1.1,
            Option.isNone_iff_eq_none.mp (by simpa [cellFree] using h1.2)⟩
        · simp at hfwd2
      · simp at hfwd
    · rcases List.mem_cons.mp hd with rfl | hd2
      · rw [hm1] at hon ⊢
        exact Or.inr (Or.inr (Or.inl ⟨rfl, hon⟩))
      · simp only [List.mem_singleton] at hd2
        subst hd2
        exact Or.inr (Or.inr (Or.inr ⟨rfl, hon⟩))
  · rintro (⟨rfl, hon, hfree⟩ | ⟨rfl, hrow, hon1, hfree1, hon2, hfree2⟩ |
      ⟨rfl, hon⟩ | ⟨rfl, hon⟩)
    · left
      rw [if_pos (by simp [cellFree, hon, Option.isNone_iff_eq_none, hfree])]
      exact List.mem_cons_self _ _
    · left
      rw [if_pos (by simp [cellFree, hon1, Option.isNone_iff_eq_none, hfree1]),
        if_pos hrow, if_pos (by simp [cellFree, hon2, Option.isNone_iff_eq_none, hfree2])]
      exact List.mem_cons_of_mem _ (List.mem_singleton.mpr rfl)
    · right
      refine ⟨(pawnDir p, -1), List.mem_cons_self _ _, ?_, ?_⟩
      · rw [hm1]
      · rw [hm1]
        exact hon
    · right
      refine ⟨(pawnDir p, 1), List.mem_cons_of_mem _ (List.mem_singleton.mpr rfl), rfl, hon⟩

theorem depth2Phase_hasIdx (board : Board) (g : Grid3) (q : Square) (i : Nat) :
    hasIdx (((depth2Phase board g) q).depth2.attackers) i = true ↔
      hasIdx ((g q).depth2.attackers) i = true ∨
        ∃ e ∈ boardPieces board, i = e.idx ∧
          hasIdx ((g q).depth1.attackers) i = false ∧
          hasIdx ((g q).depth1.defenders) i = false ∧
          ∃ mv ∈ getMoveSquares e.piece e.row e.col (some board),
            q ∈ getAttackedSquares e.piece mv.1 mv.2 none := by
  unfold depth2Phase
  exact foldl_entryStep2_hasIdx board (boardPieces board) g q i

/-- C2 (depth-2 expansion): the hypothetical destinations enumerated for a
piece are exactly its §4.3 move-set (identical to the attack set for
non-pawns; for a pawn the unoccupied forward square, the two-square
advance from the start rank when both squares are unoccupied, plus the
two on-board diagonals), attacks from each destination are computed with
no board (no occlusion), and a square's depth-2 set contains a piece
identity exactly when some piece with that identity reaches the square
this way and the identity has no depth-1 contribution there (the dedup
guard also collapses repeats within depth 2). -/
theorem claim_C2 :
    (∀ (p : Piece) (row col : Int) (b : Option Board), p.type ≠ "pawn" →
        getMoveSquares p row col b = getAttackedSquares p row col b) ∧
    (∀ (p : Piece) (row col : Int) (b : Board) (q : Square), p.type = "pawn" →
        (q ∈ getMoveSquares p row col (some b) ↔ pawnMoveSpec p row col b q)) ∧
    (∀ (board : Board) (q : Square) (i : Nat),
        hasIdx ((calculateAttacksWithDepth board 2 q).depth2.attackers) i = true ↔
          (hasIdx ((calculateAttacksWithDepth board 2 q).depth1.attackers) i = false ∧
           hasIdx ((calculateAttacksWithDepth board 2 q).depth1.defenders) i = false ∧
           ∃ e ∈ boardPieces board, i = e.idx ∧
             ∃ mv ∈ getMoveSquares e.piece e.row e.col (some board),
               q ∈ getAttackedSquares e.piece mv.1 mv.2 none)) := by
  refine ⟨?_, ?_, ?_⟩
  · intro p row col b hp
    rw [getMoveSquares, if_pos hp]
  · exact fun p row col b q hp => getMoveSquares_pawn_spec p row col b q hp
  · intro board q i
    have hred : calculateAttacksWithDepth board 2 =
        depth2Phase board (depth1Phase board (fun _ => emptyCell3)) := by
      unfold calculateAttacksWithDepth
      norm_num
    rw [hred, depth2Phase_hasIdx]
    have hinit2 : ((depth1Phase board (fun _ => emptyCell3)) q).depth2 = emptyCellAD :=
      depth1Phase_depth2 board _ q
    rw [hinit2]
    have hd1 : ((depth2Phase board (depth1Phase board (fun _ => emptyCell3))) q).depth1 =
        ((depth1Phase board (fun _ => emptyCell3)) q).depth1 :=
      depth2Phase_depth1 board _ q
    rw [hd1]
    constructor
    · rintro (hfalse | ⟨e, he, hi, hD, hE, hex⟩)
      · simp [emptyCellAD, hasIdx] at hfalse
      · exact ⟨hD, hE, e, he, hi, hex⟩
    · rintro ⟨hD, hE, e, he, hi, hex⟩
      exact Or.inr ⟨e, he, hi, hD, hE, hex⟩

theorem claim_C2_witness :
    getMoveSquares rookW 4 3 none = getAttackedSquares rookW 4 3 none ∧
    ((4, 0) ∈ getMoveSquares pawnNoId 6 0 (some (fun _ _ => none)) ↔
      pawnMoveSpec pawnNoId 6 0 (fun _ _ => none) (4, 0)) :=
  ⟨claim_C2.1 rookW 4 3 none (by decide),
   claim_C2.2.1 pawnNoId 6 0 (fun _ _ => none) (4, 0) rfl⟩

/-- One depth-3 push, described by identity membership. -/
theorem pushDepth3_hasIdx (e : PieceEntry) (g : Grid3) (s q : Square) (i : Nat) :
    (hasIdx (((pushDepth3 e g s) q).depth3.attackers) i = true ↔
      hasIdx ((g q).depth3.attackers) i = true ∨
        (q = s ∧ i = e.idx ∧ hasIdx ((g q).depth1.attackers) e.idx = false ∧
          hasIdx ((g q).depth1.defenders) e.idx = false ∧
          hasIdx ((g q).depth2.attackers) e.idx = false)) := by
  by_cases hq : q = s
  · subst hq
    by_cases hi : i = e.idx
    · subst hi
      cases hD : hasIdx ((g q).depth1.attackers) e.idx <;>
        cases hE : hasIdx ((g q).depth1.defenders) e.idx <;>
          cases hF : hasIdx ((g q).depth2.attackers) e.idx <;>
            cases hG : hasIdx ((g q).depth3.attackers) e.idx <;>
              simp [pushDepth3, updGrid3, hD, hE, hF, hG, hasIdx_append, hasIdx_singleton]
    · have hi2 : ¬ e.idx = i := fun h => hi h.symm
      unfold pushDepth3
      split <;> simp [updGrid3, hasIdx_append, hasIdx_singleton, hi, hi2]
  · unfold pushDepth3
    split <;> simp [updGrid3, hq]

/-- The depth-3 dedup invariant: an identity recorded at depth 3 has no
depth-1 or depth-2 record on the same square; preserved by the whole
depth-3 phase. -/
theorem depth3Phase_inv (board : Board) (g : Grid3)
    (h : ∀ q i, hasIdx ((g q).depth3.attackers) i = true →
      hasIdx ((g q).depth1.attackers) i = false ∧
      hasIdx ((g q).depth1.defenders) i = false ∧
      hasIdx ((g q).depth2.attackers) i = false) :
    ∀ q i, hasIdx (((depth3Phase board g) q).depth3.attackers) i = true →
      hasIdx (((depth3Phase board g) q).depth1.attackers) i = false ∧
      hasIdx (((depth3Phase board g) q).depth1.defenders) i = false ∧
      hasIdx (((depth3Phase board g) q).depth2.attackers) i = false := by
  have hstep : ∀ (e : PieceEntry) (g2 : Grid3) (s : Square),
      (∀ q i, hasIdx ((g2 q).depth3.attackers) i = true →
        hasIdx ((g2 q).depth1.attackers) i = false ∧
        hasIdx ((g2 q).depth1.defenders) i = false ∧
        hasIdx ((g2 q).depth2.attackers) i = false) →
      ∀ q i, hasIdx (((pushDepth3 e g2 s) q).depth3.attackers) i = true →
        hasIdx (((pushDepth3 e g2 s) q).depth1.attackers) i = false ∧
        hasIdx (((pushDepth3 e g2 s) q).depth1.defenders) i = false ∧
        hasIdx (((pushDepth3 e g2 s) q).depth2.attackers) i = false := by
    intro e g2 s hg2 q i hq
    rw [pushDepth3_depth1, pushDepth3_depth2]
    rw [pushDepth3_hasIdx] at hq
    rcases hq with hold | ⟨-, rfl, hD, hE, hF⟩
    · exact hg2 q i hold
    · exact ⟨hD, hE, hF⟩
  unfold depth3Phase
  refine foldl_inv
    (fun g2 : Grid3 => ∀ q i, hasIdx ((g2 q).depth3.attackers) i = true →
      hasIdx ((g2 q).depth1.attackers) i = false ∧
      hasIdx ((g2 q).depth1.defenders) i = false ∧
      hasIdx ((g2 q).depth2.attackers) i = false)
    _ _ _ h ?_
  intro g2 e he hg2
  refine foldl_inv
    (fun g2 : Grid3 => ∀ q i, hasIdx ((g2 q).depth3.attackers) i = true →
      hasIdx ((g2 q).depth1.attackers) i = false ∧
      hasIdx ((g2 q).depth1.defenders) i = false ∧
      hasIdx ((g2 q).depth2.attackers) i = false)
    _ _ _ hg2 ?_
  intro g3 mv1 hmv1 hg3
  refine foldl_inv
    (fun g2 : Grid3 => ∀ q i, hasIdx ((g2 q).depth3.attackers) i = true →
      hasIdx ((g2 q).depth1.attackers) i = false ∧
      hasIdx ((g2 q).depth1.defenders) i = false ∧
      hasIdx ((g2 q).depth2.attackers) i = false)
    _ _ _ hg3 ?_
  intro g4 mv2 hmv2 hg4
  refine foldl_inv
    (fun g2 : Grid3 => ∀ q i, hasIdx ((g2 q).depth3.attackers) i = true →
      hasIdx ((g2 q).depth1.attackers) i = false ∧
      hasIdx ((g2 q).depth1.defenders) i = false ∧
      hasIdx ((g2 q).depth2.attackers) i = false)
    _ _ _ hg4 ?_
  intro g5 s hs hg5
  exact hstep e g5 s hg5

theorem hasIdx_empty (i : Nat) : hasIdx emptyCellAD.attackers i = false := rfl

/-- C4 (cross-depth deduplication): for `maxDepth ∈ {2,3}`, an identity
with a depth-1 record (attacker or defender) on a square never appears in
that square's depth-2 or depth-3 set, and an identity in the depth-2 set
never appears in the depth-3 set. -/
theorem claim_C4 (board : Board) (maxDepth : Nat) (hmd : maxDepth = 2 ∨ maxDepth = 3)
    (q : Square) (i : Nat) :
    ((hasIdx ((calculateAttacksWithDepth board maxDepth q).depth1.attackers) i = true ∨
      hasIdx ((calculateAttacksWithDepth board maxDepth q).depth1.defenders) i = true) →
      hasIdx ((calculateAttacksWithDepth board maxDepth q).depth2.attackers) i = false ∧
      hasIdx ((calculateAttacksWithDepth board maxDepth q).depth3.attackers) i = false) ∧
    (hasIdx ((calculateAttacksWithDepth board maxDepth q).depth2.attackers) i = true →
      hasIdx ((calculateAttacksWithDepth board maxDepth q).depth3.attackers) i = false) := by
  have hA : ∀ q2 i2,
      hasIdx (((depth2Phase board (depth1Phase board (fun _ => emptyCell3))) q2).depth2.attackers) i2 = true →
      hasIdx (((depth1Phase board (fun _ => emptyCell3)) q2).depth1.attackers) i2 = false ∧
      hasIdx (((depth1Phase board (fun _ => emptyCell3)) q2).depth1.defenders) i2 = false := by
    intro q2 i2 h
    rw [depth2Phase_hasIdx] at h
    rcases h with hold | ⟨e, -, -, hD, hE, -⟩
    · rw [depth1Phase_depth2] at hold
      simp [hasIdx, emptyCell3, emptyCellAD] at hold
    · exact ⟨hD, hE⟩
  have hd3g2 : ∀ q2 : Square,
      ((depth2Phase board (depth1Phase board (fun _ => emptyCell3))) q2).depth3 = emptyCellAD := by
    intro q2
    rw [depth2Phase_depth3, depth1Phase_depth3]
    rfl
  rcases hmd with rfl | rfl
  · have hred : calculateAttacksWithDepth board 2 =
        depth2Phase board (depth1Phase board (fun _ => emptyCell3)) := by
      unfold calculateAttacksWithDepth
      norm_num
    rw [hred]
    have hd1 : ((depth2Phase board (depth1Phase board (fun _ => emptyCell3))) q).depth1 =
        ((depth1Phase board (fun _ => emptyCell3)) q).depth1 :=
      depth2Phase_depth1 board _ q
    have hd3 : hasIdx (((depth2Phase board (depth1Phase board (fun _ => emptyCell3))) q).depth3.attackers) i = false := by
      rw [hd3g2 q, hasIdx_empty]
    constructor
    · intro hd1mem
      refine ⟨?_, hd3⟩
      cases hx : hasIdx (((depth2Phase board (depth1Phase board (fun _ => emptyCell3))) q).depth2.attackers) i with
      | false => rfl
      | true =>
        obtain ⟨hDF, hEF⟩ := hA q i hx
        rw [hd1] at hd1mem
        rcases hd1mem with h | h
        · rw [hDF] at h
          cases h
        · rw [hEF] at h
          cases h
    · intro hd2mem
      exact hd3
  · have hred : calculateAttacksWithDepth board 3 =
        depth3Phase board (depth2Phase board (depth1Phase board (fun _ => emptyCell3))) := by
      unfold calculateAttacksWithDepth
      norm_num
    rw [hred]
    have hPg2 : ∀ q2 i2,
        hasIdx (((depth2Phase board (depth1Phase board (fun _ => emptyCell3))) q2).depth3.attackers) i2 = true →
        hasIdx (((depth2Phase board (depth1Phase board (fun _ => emptyCell3))) q2).depth1.attackers) i2 = false ∧
        hasIdx (((depth2Phase board (depth1Phase board (fun _ => emptyCell3))) q2).depth1.defenders) i2 = false ∧
        hasIdx (((depth2Phase board (depth1Phase board (fun _ => emptyCell3))) q2).depth2.attackers) i2 = false := by
      intro q2 i2 h
      rw [hd3g2 q2, hasIdx_empty] at h
      cases h
    have hinv := depth3Phase_inv board _ hPg2
    have hd1a : ((depth3Phase board (depth2Phase board (depth1Phase board (fun _ => emptyCell3)))) q).depth1 =
        ((depth2Phase board (depth1Phase board (fun _ => emptyCell3))) q).depth1 :=
      depth3Phase_depth1 board _ q
    have hd1b : ((depth2Phase board (depth1Phase board (fun _ => emptyCell3))) q).depth1 =
        ((depth1Phase board (fun _ => emptyCell3)) q).depth1 :=
      depth2Phase_depth1 board _ q
    have hd2a : ((depth3Phase board (depth2Phase board (depth1Phase board (fun _ => emptyCell3)))) q).depth2 =
        ((depth2Phase board (depth1Phase board (fun _ => emptyCell3))) q).depth2 :=
      depth3Phase_depth2 board _ q
    constructor
    · intro hd1mem
      constructor
      · cases hx : hasIdx (((depth3Phase board (depth2Phase board (depth1Phase board (fun _ => emptyCell3)))) q).depth2.attackers) i with
        | false => rfl
        | true =>
          rw [hd2a] at hx
          obtain ⟨hDF, hEF⟩ := hA q i hx
          rw [hd1a, hd1b] at hd1mem
          rcases hd1mem with h | h
          · rw [hDF] at h
            cases h
          · rw [hEF] at h
            cases h
      · cases hx : hasIdx (((depth3Phase board (depth2Phase board (depth1Phase board (fun _ => emptyCell3)))) q).depth3.attackers) i with
        | false => rfl
        | true =>
          obtain ⟨hDF, hEF, -⟩ := hinv q i hx
          rw [hd1a] at hd1mem
          rw [depth3Phase_depth1] at hDF hEF
          rcases hd1mem with h | h
          · rw [hDF] at h
            cases h
          · rw [hEF] at h
            cases h
    · intro hd2mem
      cases hx : hasIdx (((depth3Phase board (depth2Phase board (depth1Phase board (fun _ => emptyCell3)))) q).depth3.attackers) i with
      | false => rfl
      | true =>
        obtain ⟨-, -, hFF⟩ := hinv q i hx
        rw [depth3Phase_depth2] at hFF
        rw [hd2a, hFF] at hd2mem
        cases hd2mem

/-- C4 witness board: a single white pawn (identity 0) at (3,3). -/
def bC4w : Board := fun r c =>
  if r = 3 ∧ c = 3 then some ⟨"pawn", "white", some 0⟩ else none

theorem claim_C4_witness :
    hasIdx ((calculateAttacksWithDepth bC4w 2 (2, 2)).depth2.attackers) 0 = false ∧
    hasIdx ((calculateAttacksWithDepth bC4w 2 (2, 2)).depth3.attackers) 0 = false :=
  (claim_C4 bC4w 2 (Or.inl rfl) (2, 2) 0).1 (Or.inl (by decide))

/-! ### Per-depth uniqueness: counting machinery -/

/-- Number of contributions carrying identity `i`. -/
def countIdx (l : List AttackInfo) (i : Nat) : Nat :=
  l.countP (fun a => a.idx == i)

/-- Combined attacker+defender count of identity `i` in a depth-1 cell. -/
def cellCount (cell : CellAD) (i : Nat) : Nat :=
  countIdx cell.attackers i + countIdx cell.defenders i

theorem countIdx_append (l1 l2 : List AttackInfo) (i : Nat) :
    countIdx (l1 ++ l2) i = countIdx l1 i + countIdx l2 i :=
  List.countP_append _ l1 l2

theorem countIdx_single (j : Nat) (c : String) (i : Nat) :
    countIdx [⟨j, c⟩] i = if j = i then 1 else 0 := by
  by_cases h : j = i <;> simp [countIdx, List.countP_cons, h]

theorem hasIdx_false_countIdx {l : List AttackInfo} {i : Nat}
    (h : hasIdx l i = false) : countIdx l i = 0 := by
  rw [countIdx, List.countP_eq_zero]
  intro a ha
  rw [hasIdx, List.any_eq_false] at h
  exact h a ha

theorem classifyPush_count (board : Board) (e : PieceEntry) (g : Grid1)
    (s q : Square) (i : Nat) :
    cellCount ((classifyPush board e g s) q) i =
      cellCount (g q) i + (if q = s ∧ e.idx = i then 1 else 0) := by
  obtain ⟨hother, hcases⟩ := classifyPush_spec board e g s
  by_cases hq : q = s
  · subst hq
    rcases hcases with ⟨-, hatt, hdef⟩ | ⟨-, hdef, hatt⟩ <;>
      · unfold cellCount
        rw [hatt, hdef, countIdx_append, countIdx_single]
        by_cases hi : e.idx = i <;> simp [hi] <;> omega
  · rw [hother q hq]
    simp [hq]

theorem foldl_classify_count (board : Board) (e : PieceEntry) :
    ∀ (l : List Square) (g : Grid1) (q : Square) (i : Nat),
      cellCount ((l.foldl (classifyPush board e) g) q) i =
        cellCount (g q) i + (if e.idx = i then l.count q else 0) := by
  intro l
  induction l with
  | nil =>
    intro g q i
    simp
  | cons hd tl ih =>
    intro g q i
    rw [List.foldl_cons, ih, classifyPush_count, List.count_cons]
    by_cases hi : e.idx = i <;> by_cases hq : q = hd <;>
      simp [hi, hq, beq_iff_eq] <;>
        first
        | omega
        | exact fun h => hq h.symm

theorem entries_count (board : Board) :
    ∀ (l : List PieceEntry) (g : Grid1) (q : Square) (i : Nat),
      cellCount ((l.foldl (entryStep1 board) g) q) i =
        cellCount (g q) i +
          (l.map (fun e => if e.idx = i then
            (getAttackedSquares e.piece e.row e.col (some board)).count q else 0)).sum := by
  intro l
  induction l with
  | nil =>
    intro g q i
    simp
  | cons hd tl ih =>
    intro g q i
    rw [List.foldl_cons, ih]
    unfold entryStep1
    rw [foldl_classify_count, List.map_cons, List.sum_cons]
    omega

theorem calculateAllAttacks_count (board : Board) (q : Square) (i : Nat) :
    cellCount ((calculateAllAttacks board) q) i =
      ((boardPieces board).map (fun e => if e.idx = i then
        (getAttackedSquares e.piece e.row e.col (some board)).count q else 0)).sum := by
  rw [calculateAllAttacks_eq, entries_count]
  simp [cellCount, countIdx, emptyCellAD]

theorem count_le_one_of_nodup : ∀ {l : List Square}, l.Nodup → ∀ q : Square, l.count q ≤ 1 := by
  intro l
  induction l with
  | nil =>
    intro _ q
    simp
  | cons hd tl ih =>
    intro h q
    obtain ⟨hhd, htl⟩ := List.nodup_cons.mp h
    rw [List.count_cons]
    by_cases hq : hd = q
    · subst hq
      have h0 : tl.count hd = 0 := List.count_eq_zero.mpr hhd
      simp [h0]
    · have hb : ((hd == q) = true) = False := by
        simp [beq_iff_eq, hq]
      rw [if_neg (by simp [beq_iff_eq, hq])]
      have := ih htl q
      omega

theorem sum_contrib_le_one (board : Board) (q : Square) (i : Nat) :
    ∀ (l : List PieceEntry),
      l.Pairwise (fun a b => a.idx ≠ b.idx) →
      (∀ e ∈ l, (getAttackedSquares e.piece e.row e.col (some board)).Nodup) →
      (l.map (fun e => if e.idx = i then
        (getAttackedSquares e.piece e.row e.col (some board)).count q else 0)).sum ≤ 1 := by
  intro l
  induction l with
  | nil =>
    intro _ _
    simp
  | cons hd tl ih =>
    intro hpair hnod
    obtain ⟨hhd, htl⟩ := List.pairwise_cons.mp hpair
    rw [List.map_cons, List.sum_cons]
    by_cases hi : hd.idx = i
    · have hrest : (tl.map (fun e => if e.idx = i then
          (getAttackedSquares e.piece e.row e.col (some board)).count q else 0)).sum = 0 := by
        refine List.sum_eq_zero ?_
        intro x hx
        rw [List.mem_map] at hx
        obtain ⟨e, he, rfl⟩ := hx
        have hne : e.idx ≠ i := by
          rw [← hi]
          exact fun h => hhd e he h.symm
        simp [hne]
      rw [hrest]
      have hcnt : (getAttackedSquares hd.piece hd.row hd.col (some board)).count q ≤ 1 :=
        count_le_one_of_nodup (hnod hd (List.mem_cons_self hd tl)) q
      simp only [hi, if_true]
      omega
    · simp only [hi, if_false]
      have := ih htl (fun e he => hnod e (List.mem_cons_of_mem hd he))
      omega

/-! ### The attack set of a piece contains no duplicate squares -/

theorem clipDeltas_nodup (row col : Int) {ds : List (Int × Int)} (h : ds.Nodup) :
    (clipDeltas row col ds).Nodup := by
  refine List.Nodup.filterMap ?_ h
  intro d d2 b hb hb2
  simp only [Option.mem_def, Option.ite_none_right_eq_some, Option.some.injEq] at hb hb2
  obtain ⟨-, rfl⟩ := hb
  obtain ⟨-, heq⟩ := hb2
  rw [Prod.mk.injEq] at heq
  obtain ⟨h1, h2⟩ := heq
  rw [Prod.ext_iff]
  omega

theorem slideRay_nodup {b : Board} {dr dc : Int}
    (hd : IsUnitDir (dr, dc)) :
    ∀ (fuel : Nat) (row col : Int), (slideRay (some b) dr dc row col fuel).Nodup := by
  intro fuel
  induction fuel with
  | zero =>
    intro row col
    simp [slideRay]
  | succ n ih =>
    intro row col
    show (if isOnBoard (row + dr) (col + dc) then
        (row + dr, col + dc) ::
          (if (b (row + dr) (col + dc)).isSome then []
           else slideRay (some b) dr dc (row + dr) (col + dc) n)
      else []).Nodup
    by_cases hob : isOnBoard (row + dr) (col + dc) = true
    · rw [if_pos hob]
      by_cases hocc : (b (row + dr) (col + dc)).isSome = true
      · rw [if_pos hocc]
        simp
      · rw [if_neg hocc]
        refine List.nodup_cons.mpr ⟨?_, ih _ _⟩
        intro hmem
        rw [mem_slideRay] at hmem
        obtain ⟨k, hk1, -, heq, -, -⟩ := hmem
        rw [Prod.mk.injEq] at heq
        obtain ⟨h1, h2⟩ := heq
        obtain ⟨ha, hb2, hz⟩ := hd
        simp only at ha hb2 hz
        rcases ha with rfl | rfl | rfl <;> rcases hb2 with rfl | rfl | rfl <;> omega
    · rw [if_neg hob]
      simp

theorem getSlidingAttacks_nodup {b : Board} (row col : Int)
    (dirs : List (Int × Int)) (hunit : ∀ d ∈ dirs, IsUnitDir d)
    (hnd : dirs.Nodup) :
    (getSlidingAttacks row col dirs (some b)).Nodup := by
  rw [getSlidingAttacks, List.nodup_flatMap]
  constructor
  · intro d hd
    exact slideRay_nodup (by rw [Prod.mk.eta]; exact hunit d hd) 8 row col
  · have hne : dirs.Pairwise (fun d d2 => d ≠ d2) := hnd
    refine hne.imp_of_mem ?_
    intro d d2 hd hd2 hneq
    intro q hq hq2
    rw [mem_slideRay] at hq hq2
    obtain ⟨k, hk1, -, rfl, -, -⟩ := hq
    obtain ⟨m, hm1, -, heq, -, -⟩ := hq2
    rw [Prod.mk.injEq] at heq
    obtain ⟨he1, he2⟩ := heq
    have h1 : (k : Int) * d.1 = (m : Int) * d2.1 := by linarith
    have h2 : (k : Int) * d.2 = (m : Int) * d2.2 := by linarith
    obtain ⟨hde, -⟩ :=
      unitDir_step_inj (hunit d hd) (hunit d2 hd2) hk1 hm1 h1 h2
    exact hneq hde

/-- A piece's occlusion-aware attack list never repeats a square. -/
theorem getAttackedSquares_nodup (p : Piece) (row col : Int) (b : Board) :
    (getAttackedSquares p row col (some b)).Nodup := by
  unfold getAttackedSquares
  split_ifs with h1 h2 h3 h4 h5 h6
  · exact clipDeltas_nodup row col (by decide)
  · exact getSlidingAttacks_nodup row col queenDirs (by decide) (by decide)
  · exact getSlidingAttacks_nodup row col rookDirs (by decide) (by decide)
  · exact getSlidingAttacks_nodup row col bishopDirs (by decide) (by decide)
  · exact clipDeltas_nodup row col (by decide)
  · exact clipDeltas_nodup row col (by simp)
  · exact List.nodup_nil

/-- Entries scanned from distinct board rows and columns have distinct
positions. -/
theorem boardPieces_pairwise_pos (board : Board) :
    (boardPieces board).Pairwise
      (fun a b => a.row ≠ b.row ∨ a.col ≠ b.col) := by
  unfold boardPieces
  rw [List.pairwise_flatMap]
  have hrow : ∀ (r : Nat) (e : PieceEntry),
      e ∈ (List.range 8).filterMap (fun c =>
        match board (Int.ofNat r) (Int.ofNat c) with
        | some p => some ⟨p, Int.ofNat r, Int.ofNat c, p.pieceIndex.getD 0⟩
        | none => none) →
      e.row = Int.ofNat r := by
    intro r e he
    rw [List.mem_filterMap] at he
    obtain ⟨c, -, hc⟩ := he
    cases hb : board (Int.ofNat r) (Int.ofNat c) with
    | none =>
      rw [hb] at hc
      cases hc
    | some p =>
      rw [hb] at hc
      cases hc
      rfl
  constructor
  · intro r hr
    refine List.Pairwise.filterMap _ ?_ (List.nodup_range 8)
    intro c c2 hne e he e2 he2
    cases hb : board (Int.ofNat r) (Int.ofNat c) with
    | none =>
      rw [hb] at he
      cases he
    | some p =>
      rw [hb] at he
      cases he
      cases hb2 : board (Int.ofNat r) (Int.ofNat c2) with
      | none =>
        rw [hb2] at he2
        cases he2
      | some p2 =>
        rw [hb2] at he2
        cases he2
        right
        simp only [Int.ofNat_eq_natCast, ne_eq, Nat.cast_inj]
        exact hne
  · refine (List.nodup_range 8).imp ?_
    intro r r2 hne e he e2 he2
    left
    rw [hrow r e he, hrow r2 e2 he2]
    simp only [Int.ofNat_eq_natCast, ne_eq, Nat.cast_inj]
    exact hne

/-- Under the caller's contract that placed pieces carry pairwise-distinct
identities, the scanned entries have pairwise-distinct `idx`. -/
theorem boardPieces_pairwise_idx (board : Board)
    (hdist : ∀ (r c r2 c2 : Int) (p p2 : Piece), isOnBoard r c = true →
      isOnBoard r2 c2 = true → board r c = some p → board r2 c2 = some p2 →
      ¬(r = r2 ∧ c = c2) →
      p.pieceIndex.getD 0 ≠ p2.pieceIndex.getD 0) :
    (boardPieces board).Pairwise (fun a b => a.idx ≠ b.idx) := by
  refine (boardPieces_pairwise_pos board).imp_of_mem ?_
  intro a b ha hb hne
  rw [mem_boardPieces] at ha hb
  obtain ⟨hoa, hba, hia⟩ := ha
  obtain ⟨hob, hbb, hib⟩ := hb
  rw [hia, hib]
  refine hdist _ _ _ _ _ _ hoa hob hba hbb ?_
  rintro ⟨h1, h2⟩
  rcases hne with h | h
  · exact h h1
  · exact h h2

/-- The dedup guard keeps each identity's depth-2 count at one. -/
theorem pushDepth2_count_le (e : PieceEntry) (g : Grid3) (s : Square)
    (h : ∀ q i, countIdx ((g q).depth2.attackers) i ≤ 1) :
    ∀ q i, countIdx (((pushDepth2 e g s) q).depth2.attackers) i ≤ 1 := by
  intro q i
  unfold pushDepth2
  split
  · rename_i hguard
    simp only [Bool.and_eq_true, Bool.not_eq_true'] at hguard
    unfold updGrid3
    by_cases hq : q = s
    · subst hq
      rw [if_pos rfl]
      simp only
      rw [countIdx_append, countIdx_single]
      by_cases hi : e.idx = i
      · have h0 : countIdx ((g q).depth2.attackers) i = 0 := by
          rw [← hi]
          exact hasIdx_false_countIdx hguard.2
        rw [h0]
        simp [hi]
      · have := h q i
        simp [hi]
        omega
    · rw [if_neg hq]
      exact h q i
  · exact h q i

/-- The dedup guard keeps each identity's depth-3 count at one. -/
theorem pushDepth3_count_le (e : PieceEntry) (g : Grid3) (s : Square)
    (h : ∀ q i, countIdx ((g q).depth3.attackers) i ≤ 1) :
    ∀ q i, countIdx (((pushDepth3 e g s) q).depth3.attackers) i ≤ 1 := by
  intro q i
  unfold pushDepth3
  split
  · rename_i hguard
    simp only [Bool.and_eq_true, Bool.not_eq_true'] at hguard
    unfold updGrid3
    by_cases hq : q = s
    · subst hq
      rw [if_pos rfl]
      simp only
      rw [countIdx_append, countIdx_single]
      by_cases hi : e.idx = i
      · have h0 : countIdx ((g q).depth3.attackers) i = 0 := by
          rw [← hi]
          exact hasIdx_false_countIdx hguard.2
        rw [h0]
        simp [hi]
      · have := h q i
        simp [hi]
        omega
    · rw [if_neg hq]
      exact h q i
  · exact h q i

theorem depth2Phase_count_le (board : Board) (g : Grid3)
    (h : ∀ q i, countIdx ((g q).depth2.attackers) i ≤ 1) :
    ∀ q i, countIdx (((depth2Phase board g) q).depth2.attackers) i ≤ 1 := by
  unfold depth2Phase
  refine foldl_inv
    (fun g2 : Grid3 => ∀ q i, countIdx ((g2 q).depth2.attackers) i ≤ 1) _ _ _ h ?_
  intro g2 e he hg2
  refine foldl_inv
    (fun g2 : Grid3 => ∀ q i, countIdx ((g2 q).depth2.attackers) i ≤ 1) _ _ _ hg2 ?_
  intro g3 mv hmv hg3
  refine foldl_inv
    (fun g2 : Grid3 => ∀ q i, countIdx ((g2 q).depth2.attackers) i ≤ 1) _ _ _ hg3 ?_
  intro g4 s hs hg4
  exact pushDepth2_count_le e g4 s hg4

theorem depth3Phase_count_le (board : Board) (g : Grid3)
    (h : ∀ q i, countIdx ((g q).depth3.attackers) i ≤ 1) :
    ∀ q i, countIdx (((depth3Phase board g) q).depth3.attackers) i ≤ 1 := by
  unfold depth3Phase
  refine foldl_inv
    (fun g2 : Grid3 => ∀ q i, countIdx ((g2 q).depth3.attackers) i ≤ 1) _ _ _ h ?_
  intro g2 e he hg2
  refine foldl_inv
    (fun g2 : Grid3 => ∀ q i, countIdx ((g2 q).depth3.attackers) i ≤ 1) _ _ _ hg2 ?_
  intro g3 mv1 hmv1 hg3
  refine foldl_inv
    (fun g2 : Grid3 => ∀ q i, countIdx ((g2 q).depth3.attackers) i ≤ 1) _ _ _ hg3 ?_
  intro g4 mv2 hmv2 hg4
  refine foldl_inv
    (fun g2 : Grid3 => ∀ q i, countIdx ((g2 q).depth3.attackers) i ≤ 1) _ _ _ hg4 ?_
  intro g5 s hs hg5
  exact pushDepth3_count_le e g5 s hg5

/-- C6 (per-depth uniqueness): when placed pieces carry pairwise-distinct
identities, each identity appears at most once per depth level in any
square's recorded set — at most once in the combined depth-1
attacker+defender set of `calculateAllAttacks` and of the depth grid, and
at most once in each of the depth-2 and depth-3 attacker sets, for every
requested depth. -/
theorem claim_C6 (board : Board) (maxDepth : Nat)
    (hdist : ∀ (r c r2 c2 : Int) (p p2 : Piece), isOnBoard r c = true →
      isOnBoard r2 c2 = true → board r c = some p → board r2 c2 = some p2 →
      ¬(r = r2 ∧ c = c2) →
      p.pieceIndex.getD 0 ≠ p2.pieceIndex.getD 0)
    (q : Square) (i : Nat) :
    cellCount ((calculateAllAttacks board) q) i ≤ 1 ∧
    cellCount ((calculateAttacksWithDepth board maxDepth q).depth1) i ≤ 1 ∧
    countIdx ((calculateAttacksWithDepth board maxDepth q).depth2.attackers) i ≤ 1 ∧
    countIdx ((calculateAttacksWithDepth board maxDepth q).depth3.attackers) i ≤ 1 := by
  have h1 : cellCount ((calculateAllAttacks board) q) i ≤ 1 := by
    rw [calculateAllAttacks_count]
    exact sum_contrib_le_one board q i _ (boardPieces_pairwise_idx board hdist)
      (fun e _ => getAttackedSquares_nodup e.piece e.row e.col board)
  have hg1d2 : ∀ (q2 : Square) (i2 : Nat),
      countIdx (((depth1Phase board (fun _ => emptyCell3)) q2).depth2.attackers) i2 ≤ 1 := by
    intro q2 i2
    rw [depth1Phase_depth2]
    simp [countIdx, emptyCell3, emptyCellAD]
  have hg1d3 : ∀ (q2 : Square) (i2 : Nat),
      countIdx (((depth1Phase board (fun _ => emptyCell3)) q2).depth3.attackers) i2 ≤ 1 := by
    intro q2 i2
    rw [depth1Phase_depth3]
    simp [countIdx, emptyCell3, emptyCellAD]
  have hg2d3 : ∀ (q2 : Square) (i2 : Nat),
      countIdx (((depth2Phase board (depth1Phase board (fun _ => emptyCell3))) q2).depth3.attackers) i2 ≤ 1 := by
    intro q2 i2
    rw [depth2Phase_depth3]
    exact hg1d3 q2 i2
  refine ⟨h1, ?_, ?_, ?_⟩
  · rw [calculateAttacksWithDepth_depth1]
    exact h1
  · unfold calculateAttacksWithDepth
    by_cases hd2 : maxDepth < 2
    · rw [if_pos hd2]
      exact hg1d2 q i
    · rw [if_neg hd2]
      by_cases hd3 : maxDepth < 3
      · rw [if_pos hd3]
        exact depth2Phase_count_le board _ hg1d2 q i
      · rw [if_neg hd3]
        rw [depth3Phase_depth2]
        exact depth2Phase_count_le board _ hg1d2 q i
  · unfold calculateAttacksWithDepth
    by_cases hd2 : maxDepth < 2
    · rw [if_pos hd2]
      exact hg1d3 q i
    · rw [if_neg hd2]
      by_cases hd3 : maxDepth < 3
      · rw [if_pos hd3]
        exact hg2d3 q i
      · rw [if_neg hd3]
        exact depth3Phase_count_le board _ hg2d3 q i

theorem claim_C6_witness :
    cellCount ((calculateAllAttacks bC1w) (2, 3)) 1 ≤ 1 ∧
    countIdx ((calculateAttacksWithDepth bC1w 3 (2, 3)).depth2.attackers) 1 ≤ 1 := by
  have hdist : ∀ (r c r2 c2 : Int) (p p2 : Piece), isOnBoard r c = true →
      isOnBoard r2 c2 = true → bC1w r c = some p → bC1w r2 c2 = some p2 →
      ¬(r = r2 ∧ c = c2) →
      p.pieceIndex.getD 0 ≠ p2.pieceIndex.getD 0 := by
    intro r c r2 c2 p p2 hob hob2 hb hb2 hne
    unfold bC1w at hb hb2
    split_ifs at hb hb2 <;> (try cases hb) <;> (try cases hb2) <;>
      first
      | decide
      | exact absurd (And.intro (by omega) (by omega)) hne
  have h := claim_C6 bC1w 3 hdist (2, 3) 1
  exact ⟨h.1, h.2.2.1⟩
